import Mathlib

/-!
Verification of the `Exists` expression node of the cypher-builder repository
(`src/expressions/subquery/Exists.ts`).

The interesting code is `Exists.transformCypherQuery`, a text-to-text rewrite
driven by JavaScript regular expressions, and `Exists.getCypher`, which wraps
it with a fallback.  We shallowly embed the rewrite as executable functions on
`List Char`, modelling the exact semantics of the JavaScript regex operations
used by the source:

* `str.replace(/^\s*MATCH\s+/i, "")`         — `stripMatchL`
* `str.match(/WHERE\s+\(?(.*?)\)?$/i)` and
  `str.replace(/WHERE\s+\(?(.*?)\)?$/i, "")` — `matchWhereAt` / `findWhere`
* `str.split(/\s+AND\s+/i)`                  — `trySepAnd` / `findSepAnd` / `splitAnd`
* `str.split(/\s*=\s*/)`                     — `trySepEq` / `findSepEq` / `parseCondition`
* `key.split(".").pop()`                     — `lastDotSeg`
* `.replace(/:(\w+|`[^`]+`)\s*(?=\))/, ...)` — `tryLabelAt` / `findLabel` / `injectProps`
* `.replace(/\(\w+(:)/g, "($1")`             — `svGo` / `stripVars`

JavaScript regex facts baked into the model (all for regexes without the `m`
or `s` flags): `$` matches only at the very end of the input, `.` matches any
character except the line terminators LF, CR, U+2028, U+2029, `\s` is the
Unicode whitespace class, `\w` is `[A-Za-z0-9_]`, matching is leftmost with
greedy backtracking, a lazy group takes the shortest prefix that lets the rest
of the pattern match, and `String.prototype.match` without `g` returns the
first match only.
-/

namespace CypherBuilder

/-- JavaScript `\s` (regex whitespace) by code point: space, tab, LF, VT, FF,
CR, NBSP, Ogham space mark, the en-quad .. hair-space range, LS, PS, NNBSP,
MMSP, ideographic space and the BOM. -/
def isJsWs (c : Char) : Bool :=
  (c.toNat == 0x20) || (c.toNat == 0x09) || (c.toNat == 0x0a) || (c.toNat == 0x0b) ||
  (c.toNat == 0x0c) || (c.toNat == 0x0d) || (c.toNat == 0xa0) || (c.toNat == 0x1680) ||
  (c.toNat == 0x2028) || (c.toNat == 0x2029) || (c.toNat == 0x202f) || (c.toNat == 0x205f) ||
  (c.toNat == 0x3000) || (c.toNat == 0xfeff) ||
  (Nat.ble 0x2000 c.toNat && Nat.ble c.toNat 0x200a)

/-- JavaScript `\w` (regex word character): `[A-Za-z0-9_]`, by code point. -/
def isWordChar (c : Char) : Bool :=
  (Nat.ble 0x30 c.toNat && Nat.ble c.toNat 0x39) ||
  (Nat.ble 0x41 c.toNat && Nat.ble c.toNat 0x5a) ||
  (Nat.ble 0x61 c.toNat && Nat.ble c.toNat 0x7a) ||
  (c.toNat == 0x5f)

/-- JavaScript line terminators, the characters `.` does not match:
LF, CR, U+2028 and U+2029. -/
def isLineTerm (c : Char) : Bool :=
  (c.toNat == 0x0a) || (c.toNat == 0x0d) || (c.toNat == 0x2028) || (c.toNat == 0x2029)

/-- ASCII lower-casing on code points, used to model the `i` regex flag. -/
def lowerNat (n : Nat) : Nat :=
  if 0x41 ≤ n ∧ n ≤ 0x5a then n + 32 else n

/-- Case-insensitive character comparison (the `i` regex flag). -/
def ciEq (c d : Char) : Bool :=
  lowerNat c.toNat == lowerNat d.toNat

/-- Case-insensitive "the text starts with this pattern" check. -/
def ciStartsWith : List Char → List Char → Bool
  | [], _ => true
  | _ :: _, [] => false
  | p :: ps, c :: cs => ciEq c p && ciStartsWith ps cs

/-- The keyword `where` as a character list (the pattern of `/WHERE/i`). -/
def whereTok : List Char := 'w' :: 'h' :: 'e' :: 'r' :: 'e' :: []

/-- The keyword `and` as a character list (the pattern of `/AND/i`). -/
def andTok : List Char := 'a' :: 'n' :: 'd' :: []

/-- The keyword `match` as a character list (the pattern of `/MATCH/i`). -/
def matchTok : List Char := 'm' :: 'a' :: 't' :: 'c' :: 'h' :: []

/-- Modelled from the spec: the `padBlock` helper (`utils/pad-block`, not part
of the given sources) indents every line of a text block by one fixed block
level; the spec gives a tab as the block prefix.  `padLine` inserts a tab
after every newline. -/
def padLine : List Char → List Char
  | [] => []
  | c :: t => if c = '\n' then c :: '\t' :: padLine t else c :: padLine t

/-- Modelled from the spec: `padBlock` prefixes the first line with the block
indent and `padLine` handles all later lines. -/
def padBlockL (l : List Char) : List Char := '\t' :: padLine l

/-- Embeds `cypherFragment.replace(/^\s*MATCH\s+/i, "")`: if the fragment starts with
optional whitespace, then a case-insensitive `MATCH`, then at least one
whitespace character, drop all of that; otherwise return it unchanged. -/
def stripMatchL (l : List Char) : List Char :=
  let r := l.dropWhile isJsWs
  if ciStartsWith matchTok r then
    match r.drop 5 with
    | c :: rest => if isJsWs c then (c :: rest).dropWhile isJsWs else l
    | [] => l
  else l

/-- One attempt of `/WHERE\s+\(?(.*?)\)?$/i` at the current position: the five
characters must spell `WHERE` case-insensitively, at least one whitespace
character must follow, and — because `.` cannot cross a line terminator while
`$` only matches at the end of the input — the text after the maximal
whitespace run must be free of line terminators.  The lazy group then captures
that text minus an optional leading `(` and an optional trailing `)`.
Returns the capture on success. -/
def matchWhereAt (l : List Char) : Option (List Char) :=
  if ciStartsWith whereTok l then
    match l.drop 5 with
    | [] => none
    | c :: rest =>
      if isJsWs c then
        let t := (c :: rest).dropWhile isJsWs
        if t.any isLineTerm then none
        else
          let t1 := if t.head? = some '(' then t.tail else t
          match t1.getLast? with
          | some ch => if ch = ')' then some t1.dropLast else some t1
          | none => some t1
      else none
  else none

/-- Leftmost match of the WHERE regex: returns the text before the match (the
match itself always extends to the end of the input, so this is what
`replace(whereRegEx, "")` leaves) together with the capture. -/
def findWhere : List Char → Option (List Char × List Char)
  | [] => none
  | c :: t =>
    match matchWhereAt (c :: t) with
    | some cap => some ([], cap)
    | none => (findWhere t).map (fun p => (c :: p.1, p.2))

/-- One attempt of the separator `/\s+AND\s+/i` at the current position: a
nonempty whitespace run, then `AND` case-insensitively, then another nonempty
whitespace run (both runs maximal, since a shorter first run would put a
whitespace character where `A` is required).  Returns the text after the
separator on success. -/
def trySepAnd (l : List Char) : Option (List Char) :=
  let run := l.takeWhile isJsWs
  let r1 := l.dropWhile isJsWs
  if run.isEmpty then none
  else if ciStartsWith andTok r1 then
    match r1.drop 3 with
    | c :: rest => if isJsWs c then some ((c :: rest).dropWhile isJsWs) else none
    | [] => none
  else none

/-- Leftmost occurrence of the `/\s+AND\s+/i` separator: text before it and
text after it. -/
def findSepAnd : List Char → Option (List Char × List Char)
  | [] => none
  | c :: t =>
    match trySepAnd (c :: t) with
    | some after => some ([], after)
    | none => (findSepAnd t).map (fun p => (c :: p.1, p.2))

/-- Embeds `String.prototype.split(/\s+AND\s+/i)` as fuelled iteration of
`findSepAnd`; the fuel only needs to dominate the number of separators, and
`splitAnd` supplies the length of the input. -/
def splitAndF : Nat → List Char → List (List Char)
  | 0, l => [l]
  | Nat.succ n, l =>
    match findSepAnd l with
    | none => [l]
    | some (b, a) => b :: splitAndF n a

/-- Embeds `whereMatch[1].split(/\s+AND\s+/i)`. -/
def splitAnd (l : List Char) : List (List Char) := splitAndF l.length l

/-- One attempt of the separator `/\s*=\s*/` at the current position: an
optional (maximal) whitespace run, then `=`, then optional whitespace.
Returns the text after the separator. -/
def trySepEq (l : List Char) : Option (List Char) :=
  let r1 := l.dropWhile isJsWs
  if r1.head? = some '=' then some (r1.tail.dropWhile isJsWs) else none

/-- Leftmost occurrence of the `/\s*=\s*/` separator: text before and after. -/
def findSepEq : List Char → Option (List Char × List Char)
  | [] => none
  | c :: t =>
    match trySepEq (c :: t) with
    | some after => some ([], after)
    | none => (findSepEq t).map (fun p => (c :: p.1, p.2))

/-- Embeds `const [key = "", value = ""] = condition.split(/\s*=\s*/)`: the first two
fields of the split, defaulting to the empty string.  The first field always
exists (it is the whole text when there is no separator); the second defaults
to empty. -/
def parseCondition (c : List Char) : List Char × List Char :=
  match findSepEq c with
  | none => (c, [])
  | some (k, rest) =>
    match findSepEq rest with
    | none => (k, rest)
    | some (v, _) => (k, v)

/-- Embeds `key.split(".").pop()`: the final dot-separated segment of the key. -/
def lastDotSeg (l : List Char) : List Char :=
  (l.reverse.takeWhile (fun c => !(c = '.'))).reverse

/-- A `CypherCondition` object `{ [strippedKey]: value }` as the source builds
it: a one-entry key/value mapping, modelled as an association list (a computed
single-key object literal always has exactly one own key, even when the key is
the empty string). -/
abbrev CypherCondition := List (List Char × List Char)

/-- The per-condition object built inside the `.map` of the source: key split
on `=`, alias prefix stripped from the key via `split(".").pop()`. -/
def conditionEntry (c : List Char) : CypherCondition :=
  [(lastDotSeg (parseCondition c).1, (parseCondition c).2)]

/-- The body of the `.map` producing the properties string: `""` when the
object has no keys, otherwise `` `${key}: ${cond[key]}` `` for its first key. -/
def condPiece (cond : CypherCondition) : List Char :=
  match cond with
  | [] => []
  | (k, v) :: _ => k ++ ':' :: ' ' :: v

/-- JavaScript `Array.prototype.join(sep)`. -/
def joinSep (sep : List Char) : List (List Char) → List Char
  | [] => []
  | [x] => x
  | x :: y :: t => x ++ sep ++ joinSep sep (y :: t)

/-- The `properties` string of the source: split the captured WHERE text on
`AND`, build the one-entry condition objects, render each as `key: value` and
join with `", "`. -/
def propertiesOf (cap : List Char) : List Char :=
  joinSep (',' :: ' ' :: []) ((splitAnd cap).map (fun c => condPiece (conditionEntry c)))

/-- One attempt of `/:(\w+|`[^`]+`)\s*(?=\))/` at the current position: `:`
followed by either a nonempty word-character run or a backtick-quoted nonempty
run, then optional whitespace, with `)` required next (lookahead, not
consumed).  Returns the matched text and the rest starting at the `)`. -/
def tryLabelAt (l : List Char) : Option (List Char × List Char) :=
  match l with
  | [] => none
  | c :: r =>
    if c = ':' then
      let w := r.takeWhile isWordChar
      if w.isEmpty then
        if r.head? = some '\x60' then
          let r1 := r.tail
          let inner := r1.takeWhile (fun x => !(x = '\x60'))
          let r1b := r1.dropWhile (fun x => !(x = '\x60'))
          if inner.isEmpty then none
          else if r1b.head? = some '\x60' then
            let r2 := r1b.tail
            let ws := r2.takeWhile isJsWs
            let r3 := r2.dropWhile isJsWs
            if r3.head? = some ')' then some (':' :: '\x60' :: inner ++ '\x60' :: ws, r3)
            else none
          else none
        else none
      else
        let ws := (r.dropWhile isWordChar).takeWhile isJsWs
        let r3 := (r.dropWhile isWordChar).dropWhile isJsWs
        if r3.head? = some ')' then some (':' :: w ++ ws, r3) else none
    else none

/-- Leftmost match of the label regex: text before, matched text, rest. -/
def findLabel : List Char → Option (List Char × List Char × List Char)
  | [] => none
  | c :: t =>
    match tryLabelAt (c :: t) with
    | some (m, rest) => some ([], m, rest)
    | none => (findLabel t).map (fun x => (c :: x.1, x.2.1, x.2.2))

/-- Embeds `.replace(/:(\w+|`[^`]+`)\s*(?=\))/, `$& { ${properties} }`)`: insert
``⬝ { props }`` after the first label match (no `g` flag, so at most one
insertion; no match, no insertion). -/
def injectProps (props l : List Char) : List Char :=
  match findLabel l with
  | none => l
  | some (b, m, rest) =>
    b ++ m ++ ' ' :: '\x7b' :: ' ' :: props ++ ' ' :: '\x7d' :: rest

/-- Scanner for `.replace(/\(\w+(:)/g, "($1")`.  The first argument is the
scan state: `none` outside a candidate match, `some buf` after an `(` with
`buf` holding the word characters read so far (reversed).  On `(w+:` the
variable characters are dropped and `(:` is emitted; otherwise the buffered
text is flushed unchanged and scanning resumes, matching the left-to-right
non-overlapping semantics of a global replace. -/
def svGo : Option (List Char) → List Char → List Char
  | none, [] => []
  | none, c :: t => if c = '(' then svGo (some []) t else c :: svGo none t
  | some buf, [] => '(' :: buf.reverse
  | some buf, c :: t =>
    if isWordChar c then svGo (some (c :: buf)) t
    else if c = ':' ∧ ¬buf.isEmpty then '(' :: ':' :: svGo none t
    else if c = '(' then '(' :: buf.reverse ++ svGo (some []) t
    else '(' :: buf.reverse ++ c :: svGo none t

/-- Embeds `transformed.replace(/\(\w+(:)/g, "($1")`. -/
def stripVars (l : List Char) : List Char := svGo none l

/-- Embeds `Exists.transformCypherQuery`: strip the leading `MATCH`, find the WHERE
clause (throwing `"No WHERE clause found."` when the regex does not match or
captures an empty condition text), build the properties string, remove the
WHERE clause, inject the properties after the first label and strip node
variable names. -/
def transformCypherQuery (cypherFragment : List Char) : Except String (List Char) :=
  let strippedMatch := stripMatchL cypherFragment
  match findWhere strippedMatch with
  | none => Except.error "No WHERE clause found."
  | some (before, cap) =>
    if cap.isEmpty then Except.error "No WHERE clause found."
    else Except.ok (stripVars (injectProps (propertiesOf cap) before))

/-- Embeds `Exists.getCypher`, as a function of the text the subquery renders to:
indent the rendered subquery, try the rewrite, and emit either the
`EXISTS ( ... )` form or the `EXISTS \x7b ... )` fallback. -/
def getCypherL (subQueryStr : List Char) : List Char :=
  let paddedSubQuery := padBlockL subQueryStr
  match transformCypherQuery paddedSubQuery with
  | Except.ok t => String.toList "EXISTS (\n" ++ t ++ String.toList "\n)"
  | Except.error _ => String.toList "EXISTS \x7b\n" ++ paddedSubQuery ++ String.toList "\n)"

/-- Whether a case-insensitive occurrence of `WHERE` appears anywhere in the
text; this is how "the fragment contains a WHERE clause" is read. -/
def hasWhere : List Char → Bool
  | [] => false
  | c :: t => ciStartsWith whereTok (c :: t) || hasWhere t

/-! ### Character-class facts -/

/-- Value characters: word characters plus `$` (the shape of parameter
references like `$val`).  Used only to state well-formedness hypotheses of
theorems, not by the embedded code. -/
def isValChar (c : Char) : Bool := isWordChar c || (c.toNat == 0x24)

theorem not_ws_of_word {c : Char} (h : isWordChar c = true) : isJsWs c = false := by
  cases hws : isJsWs c with
  | false => rfl
  | true =>
    exfalso
    simp only [isWordChar, isJsWs, Bool.or_eq_true, Bool.and_eq_true, Nat.ble_eq,
      beq_iff_eq] at h hws
    omega

theorem not_ws_of_val {c : Char} (h : isValChar c = true) : isJsWs c = false := by
  cases hws : isJsWs c with
  | false => rfl
  | true =>
    exfalso
    simp only [isValChar, isWordChar, isJsWs, Bool.or_eq_true, Bool.and_eq_true, Nat.ble_eq,
      beq_iff_eq] at h hws
    omega

theorem not_lineTerm_of_val {c : Char} (h : isValChar c = true) : isLineTerm c = false := by
  cases hlt : isLineTerm c with
  | false => rfl
  | true =>
    exfalso
    simp only [isValChar, isWordChar, isLineTerm, Bool.or_eq_true, Bool.and_eq_true, Nat.ble_eq,
      beq_iff_eq] at h hlt
    omega

theorem val_of_word {c : Char} (h : isWordChar c = true) : isValChar c = true := by
  simp [isValChar, h]

theorem not_lineTerm_of_word {c : Char} (h : isWordChar c = true) : isLineTerm c = false :=
  not_lineTerm_of_val (val_of_word h)

theorem word_ne_colon {c : Char} (h : isWordChar c = true) : c ≠ ':' := by
  rintro rfl; exact absurd h (by decide)

theorem word_ne_dot {c : Char} (h : isWordChar c = true) : c ≠ '.' := by
  rintro rfl; exact absurd h (by decide)

theorem val_ne_eq {c : Char} (h : isValChar c = true) : c ≠ '=' := by
  rintro rfl; exact absurd h (by decide)

theorem val_ne_lparen {c : Char} (h : isValChar c = true) : c ≠ '(' := by
  rintro rfl; exact absurd h (by decide)

theorem val_ne_rparen {c : Char} (h : isValChar c = true) : c ≠ ')' := by
  rintro rfl; exact absurd h (by decide)

theorem word_ne_eq {c : Char} (h : isWordChar c = true) : c ≠ '=' :=
  val_ne_eq (val_of_word h)

theorem word_ne_lparen {c : Char} (h : isWordChar c = true) : c ≠ '(' :=
  val_ne_lparen (val_of_word h)

/-- A whitespace character never compares case-insensitively equal to a
lowercase letter. -/
theorem ciEq_ws_letter {d a : Char} (hd : isJsWs d = true)
    (ha : 0x61 ≤ a.toNat ∧ a.toNat ≤ 0x7a) : ciEq d a = false := by
  simp only [isJsWs, Bool.or_eq_true, Bool.and_eq_true, Nat.ble_eq, beq_iff_eq] at hd
  simp only [ciEq, lowerNat, beq_eq_false_iff_ne, ne_eq]
  split <;> split <;> omega

/-! ### List scanning helpers -/

theorem all_imp {p q : Char → Bool} {u : List Char} (h : ∀ c, p c = true → q c = true)
    (hu : u.all p = true) : u.all q = true := by
  simp only [List.all_eq_true] at *
  exact fun c hc => h c (hu c hc)

theorem any_eq_false_of_all {p q : Char → Bool} {u : List Char}
    (h : ∀ c, p c = true → q c = false) (hu : u.all p = true) : u.any q = false := by
  simp only [List.all_eq_true] at hu
  simp only [List.any_eq_false]
  exact fun c hc => by simpa using h c (hu c hc)

theorem takeWhile_append_all {p : Char → Bool} {u r : List Char} (h : u.all p = true) :
    (u ++ r).takeWhile p = u ++ r.takeWhile p := by
  induction u with
  | nil => simp
  | cons c t ih => simp_all [List.takeWhile_cons]

theorem dropWhile_append_all {p : Char → Bool} {u r : List Char} (h : u.all p = true) :
    (u ++ r).dropWhile p = r.dropWhile p := by
  induction u with
  | nil => simp
  | cons c t ih => simp_all [List.dropWhile_cons]

theorem takeWhile_cons_neg {p : Char → Bool} {c : Char} {t : List Char} (h : p c = false) :
    (c :: t).takeWhile p = [] := by
  simp [List.takeWhile_cons, h]

theorem dropWhile_cons_neg {p : Char → Bool} {c : Char} {t : List Char} (h : p c = false) :
    (c :: t).dropWhile p = c :: t := by
  simp [List.dropWhile_cons, h]

/-! ### `ciStartsWith` facts -/

@[simp] theorem ciStartsWith_nil (l : List Char) : ciStartsWith [] l = true := rfl

theorem ciStartsWith_cons {p : Char} {ps : List Char} {d : Char} {cs : List Char} :
    ciStartsWith (p :: ps) (d :: cs) = (ciEq d p && ciStartsWith ps cs) := by
  rfl

/-- If every character of the pattern refuses to match the first character of
`r` case-insensitively, a case-insensitive match of the pattern inside
`u ++ r` must fit inside `u`. -/
theorem ciStartsWith_length {p : List Char} : ∀ {u r : List Char},
    (∀ a ∈ p, ∀ d, r.head? = some d → ciEq d a = false) →
    ciStartsWith p (u ++ r) = true → p.length ≤ u.length := by
  induction p with
  | nil => intro u r _ _; simp
  | cons a ps ih =>
    intro u r hr hsw
    cases u with
    | nil =>
      exfalso
      cases r with
      | nil => simp [ciStartsWith] at hsw
      | cons d rs =>
        rw [List.nil_append, ciStartsWith_cons, hr a (by simp) d rfl] at hsw
        simp at hsw
    | cons c u2 =>
      rw [List.cons_append, ciStartsWith_cons, Bool.and_eq_true] at hsw
      have := ih (u := u2) (r := r) (fun x hx => hr x (by simp [hx])) hsw.2
      simpa [Nat.succ_le_succ_iff] using this

/-! ### `findWhere` facts -/

/-- The text after a candidate skipping block neither starts with whitespace
nor with a character that case-insensitively matches a letter of `where`. -/
def headSafeWhere (r : List Char) : Prop :=
  ∀ d, r.head? = some d → (isJsWs d = false ∧ ∀ a ∈ whereTok, ciEq d a = false)

theorem matchWhereAt_none_of_word {u r : List Char} (hu : u.all isWordChar = true)
    (hr : headSafeWhere r) : matchWhereAt (u ++ r) = none := by
  by_cases hsw : ciStartsWith whereTok (u ++ r) = true
  · have hlen : 5 ≤ u.length := by
      have := ciStartsWith_length (p := whereTok) (u := u) (r := r)
        (fun a ha d hd => (hr d hd).2 a ha) hsw
      simpa [whereTok] using this
    simp only [matchWhereAt, hsw, if_true]
    rw [List.drop_append_of_le_length hlen]
    cases h5 : u.drop 5 with
    | nil =>
      simp only [List.nil_append]
      cases r with
      | nil => rfl
      | cons d rs =>
        have hd := (hr d rfl).1
        simp [hd]
    | cons d us =>
      have hdu : d ∈ u := List.mem_of_mem_drop (by rw [h5]; exact List.mem_cons_self d us)
      have hdw : isWordChar d = true := by
        simp only [List.all_eq_true] at hu; exact hu d hdu
      simp [not_ws_of_word hdw]
  · simp only [matchWhereAt]
    rw [if_neg hsw]

theorem findWhere_cons_none {c : Char} {t : List Char} (h : matchWhereAt (c :: t) = none) :
    findWhere (c :: t) = (findWhere t).map (fun p => (c :: p.1, p.2)) := by
  simp [findWhere, h]

theorem findWhere_append_word {u r : List Char} (hu : u.all isWordChar = true)
    (hr : headSafeWhere r) :
    findWhere (u ++ r) = (findWhere r).map (fun p => (u ++ p.1, p.2)) := by
  induction u with
  | nil => rw [List.nil_append]; cases findWhere r <;> simp
  | cons c t ih =>
    have hnone : matchWhereAt ((c :: t) ++ r) = none := matchWhereAt_none_of_word hu hr
    rw [List.cons_append] at hnone ⊢
    rw [findWhere_cons_none hnone, ih (by simp_all)]
    cases findWhere r <;> simp

theorem matchWhereAt_none_of_head {c : Char} {r : List Char} (h : ciEq c 'w' = false) :
    matchWhereAt (c :: r) = none := by
  have hsw : ¬ ciStartsWith whereTok (c :: r) = true := by
    simp [whereTok, ciStartsWith_cons, h]
  simp only [matchWhereAt]
  rw [if_neg hsw]

theorem findWhere_cons_skip {c : Char} {r : List Char} (h : ciEq c 'w' = false) :
    findWhere (c :: r) = (findWhere r).map (fun p => (c :: p.1, p.2)) :=
  findWhere_cons_none (matchWhereAt_none_of_head h)

/-- A successful attempt of the WHERE regex: the keyword, one space, then a
condition text that starts with no whitespace, contains no line terminator,
and carries no optional parentheses to strip. -/
theorem matchWhereAt_hit {T : List Char} (hlt : T.any isLineTerm = false)
    (hdw : T.dropWhile isJsWs = T)
    (hhd : T.head? ≠ some '(')
    (hlast : T.getLast? ≠ some ')') :
    matchWhereAt ('W' :: 'H' :: 'E' :: 'R' :: 'E' :: ' ' :: T) = some T := by
  have hsw : ciStartsWith whereTok ('W' :: 'H' :: 'E' :: 'R' :: 'E' :: ' ' :: T) = true := by
    simp only [whereTok, ciStartsWith_cons, ciStartsWith_nil, Bool.and_eq_true]
    refine ⟨by decide, by decide, by decide, by decide, by decide, trivial⟩
  have hsp : isJsWs ' ' = true := by decide
  have hdrop : ('W' :: 'H' :: 'E' :: 'R' :: 'E' :: ' ' :: T).drop 5 = ' ' :: T := rfl
  simp only [matchWhereAt, hsw, if_true, hdrop, hsp, List.dropWhile_cons, hdw, hlt,
    Bool.false_eq_true, if_false]
  rw [if_neg hhd]
  cases hgl : T.getLast? with
  | none => rfl
  | some ch =>
    have : ¬ ch = ')' := by rintro rfl; exact hlast hgl
    simp [this]

/-! ### `findSepAnd` facts -/

theorem ciStartsWith_append_of_le {p : List Char} : ∀ {u r : List Char}, p.length ≤ u.length →
    ciStartsWith p (u ++ r) = ciStartsWith p u := by
  induction p with
  | nil => simp
  | cons a ps ih =>
    intro u r h
    cases u with
    | nil => simp at h
    | cons c u2 =>
      rw [List.cons_append, ciStartsWith_cons, ciStartsWith_cons,
        ih (Nat.le_of_succ_le_succ h)]

theorem trySepAnd_none_of_not_ws {c : Char} {t : List Char} (h : isJsWs c = false) :
    trySepAnd (c :: t) = none := by
  simp [trySepAnd, takeWhile_cons_neg h]

theorem findSepAnd_cons_none {c : Char} {t : List Char} (h : trySepAnd (c :: t) = none) :
    findSepAnd (c :: t) = (findSepAnd t).map (fun p => (c :: p.1, p.2)) := by
  have e : findSepAnd (c :: t)
      = match trySepAnd (c :: t) with
        | some after => some ([], after)
        | none => (findSepAnd t).map (fun p => (c :: p.1, p.2)) := rfl
  rw [e, h]

theorem findSepAnd_append_notws {u r : List Char} (hu : u.all (fun c => !isJsWs c) = true) :
    findSepAnd (u ++ r) = (findSepAnd r).map (fun p => (u ++ p.1, p.2)) := by
  induction u with
  | nil => rw [List.nil_append]; cases findSepAnd r <;> simp
  | cons c t ih =>
    have hc : isJsWs c = false := by simp_all
    rw [List.cons_append, findSepAnd_cons_none (trySepAnd_none_of_not_ws hc),
      ih (by simp_all)]
    cases findSepAnd r <;> simp

theorem trySepAnd_ws_then {c d : Char} {t : List Char} (hc : isJsWs c = true)
    (hd : isJsWs d = false) (hda : ciEq d 'a' = false) :
    trySepAnd (c :: d :: t) = none := by
  have h1 : (c :: d :: t).takeWhile isJsWs = c :: (d :: t).takeWhile isJsWs := by
    simp [List.takeWhile_cons, hc]
  have h2 : (c :: d :: t).dropWhile isJsWs = d :: t := by
    simp [List.dropWhile_cons, hc, hd]
  simp [trySepAnd, h1, h2, andTok, ciStartsWith_cons, hda]

/-- The `AND`-pattern letters never case-insensitively match the head of a
whitespace-headed rest. -/
theorem andTok_head_safe {r : List Char} (hr : ∀ d, r.head? = some d → isJsWs d = true) :
    ∀ a ∈ andTok, ∀ d, r.head? = some d → ciEq d a = false := by
  intro a ha d hd
  refine ciEq_ws_letter (hr d hd) ?_
  simp only [andTok, List.mem_cons, List.not_mem_nil, or_false] at ha
  rcases ha with rfl | rfl | rfl <;> exact ⟨by decide, by decide⟩

theorem trySepAnd_space_val_end {v : List Char} (hv : v.all isValChar = true) :
    trySepAnd (' ' :: v) = none := by
  have hsp : isJsWs ' ' = true := by decide
  have hr1 : (' ' :: v).dropWhile isJsWs = v := by
    cases v with
    | nil => simp [List.dropWhile_cons, hsp]
    | cons c t =>
      have hcv : isJsWs c = false := not_ws_of_val (by simp_all)
      simp [List.dropWhile_cons, hsp, hcv]
  have hrun : (' ' :: v).takeWhile isJsWs = ' ' :: v.takeWhile isJsWs := by
    simp [List.takeWhile_cons, hsp]
  by_cases hand : ciStartsWith andTok v = true
  · simp only [trySepAnd, hrun, hr1, List.isEmpty_cons, Bool.false_eq_true, if_false, hand,
      if_true]
    cases h3 : v.drop 3 with
    | nil => rfl
    | cons c rest =>
      have hcv : c ∈ v := List.mem_of_mem_drop (by rw [h3]; exact List.mem_cons_self c rest)
      have : isJsWs c = false := by
        refine not_ws_of_val ?_
        simp only [List.all_eq_true] at hv
        exact hv c hcv
      simp [this]
  · simp only [trySepAnd, hrun, hr1, List.isEmpty_cons, Bool.false_eq_true, if_false]
    rw [if_neg hand]

theorem trySepAnd_space_val_sep {v r : List Char} (hv : v.all isValChar = true) (hvn : v ≠ [])
    (hand : ¬(v.length = 3 ∧ ciStartsWith andTok v = true))
    (hr : ∀ d, r.head? = some d → isJsWs d = true) :
    trySepAnd (' ' :: (v ++ r)) = none := by
  have hsp : isJsWs ' ' = true := by decide
  obtain ⟨c0, v2, rfl⟩ : ∃ c0 v2, v = c0 :: v2 := by
    cases v with
    | nil => exact absurd rfl hvn
    | cons a b => exact ⟨a, b, rfl⟩
  have hc0 : isJsWs c0 = false := not_ws_of_val (by simp_all)
  have hr1 : (' ' :: ((c0 :: v2) ++ r)).dropWhile isJsWs = (c0 :: v2) ++ r := by
    simp [List.dropWhile_cons, hsp, hc0]
  have hrun : (' ' :: ((c0 :: v2) ++ r)).takeWhile isJsWs
      = ' ' :: ((c0 :: v2) ++ r).takeWhile isJsWs := by
    simp [List.takeWhile_cons, hsp]
  by_cases hsw : ciStartsWith andTok ((c0 :: v2) ++ r) = true
  · have hlen : 3 ≤ (c0 :: v2).length := by
      have := ciStartsWith_length (p := andTok) (u := c0 :: v2) (r := r)
        (andTok_head_safe hr) hsw
      simpa [andTok] using this
    simp only [trySepAnd, hrun, hr1, List.isEmpty_cons, Bool.false_eq_true, if_false, hsw,
      if_true]
    rw [List.drop_append_of_le_length hlen]
    cases h3 : (c0 :: v2).drop 3 with
    | nil =>
      exfalso
      have hlen2 : (c0 :: v2).length ≤ 3 := by
        have := congrArg List.length h3
        simp only [List.length_drop, List.length_nil] at this
        omega
      have hlen3 : (c0 :: v2).length = 3 := le_antisymm hlen2 hlen
      refine hand ⟨hlen3, ?_⟩
      rw [← ciStartsWith_append_of_le (r := r) (by simp [andTok, hlen3]), hsw]
    | cons c rest =>
      have hcv : c ∈ c0 :: v2 := List.mem_of_mem_drop (by rw [h3]; exact List.mem_cons_self c rest)
      have : isJsWs c = false := by
        refine not_ws_of_val ?_
        simp only [List.all_eq_true] at hv
        exact hv c hcv
      simp [this]
  · simp only [trySepAnd, hrun, hr1, List.isEmpty_cons, Bool.false_eq_true, if_false]
    rw [if_neg hsw]

/-! ### `findSepEq` facts -/

theorem trySepEq_none {c : Char} {t : List Char} (h1 : isJsWs c = false) (h2 : ¬ c = '=') :
    trySepEq (c :: t) = none := by
  simp [trySepEq, dropWhile_cons_neg h1, h2]

theorem findSepEq_cons_none {c : Char} {t : List Char} (h : trySepEq (c :: t) = none) :
    findSepEq (c :: t) = (findSepEq t).map (fun p => (c :: p.1, p.2)) := by
  have e : findSepEq (c :: t)
      = match trySepEq (c :: t) with
        | some after => some ([], after)
        | none => (findSepEq t).map (fun p => (c :: p.1, p.2)) := rfl
  rw [e, h]

theorem findSepEq_append_safe {u r : List Char}
    (hu : u.all (fun c => !isJsWs c && !(c = '=')) = true) :
    findSepEq (u ++ r) = (findSepEq r).map (fun p => (u ++ p.1, p.2)) := by
  induction u with
  | nil => rw [List.nil_append]; cases findSepEq r <;> simp
  | cons c t ih =>
    have hc : isJsWs c = false ∧ ¬ c = '=' := by
      have : (!isJsWs c && !(c = '=')) = true := by simp_all
      constructor
      · cases h : isJsWs c
        · rfl
        · rw [h] at this; exact absurd this (by simp)
      · intro hce
        rw [hce] at this
        exact absurd this (by simp)
    rw [List.cons_append, findSepEq_cons_none (trySepEq_none hc.1 hc.2), ih (by simp_all)]
    cases findSepEq r <;> simp

theorem findSepEq_none_of_safe {v : List Char}
    (hv : v.all (fun c => !isJsWs c && !(c = '=')) = true) : findSepEq v = none := by
  have := findSepEq_append_safe (u := v) (r := []) hv
  simpa using this

theorem trySepEq_hit {w : List Char} (hw : w.dropWhile isJsWs = w) :
    trySepEq (' ' :: '=' :: ' ' :: w) = some w := by
  have hsp : isJsWs ' ' = true := by decide
  have heq : isJsWs '=' = false := by decide
  simp [trySepEq, List.dropWhile_cons, hsp, heq, hw]

/-! ### `lastDotSeg` facts -/

theorem lastDotSeg_append {u k : List Char} (hk : k.all (fun c => !(c = '.')) = true) :
    lastDotSeg (u ++ '.' :: k) = k := by
  unfold lastDotSeg
  rw [List.reverse_append, List.reverse_cons, List.append_assoc,
    takeWhile_append_all (by simpa using hk), List.singleton_append,
    takeWhile_cons_neg (by decide), List.append_nil, List.reverse_reverse]

/-! ### `findLabel` and `injectProps` facts -/

theorem tryLabelAt_ne {c : Char} {t : List Char} (h : ¬ c = ':') : tryLabelAt (c :: t) = none := by
  simp only [tryLabelAt]
  rw [if_neg h]

theorem findLabel_cons_none {c : Char} {t : List Char} (h : tryLabelAt (c :: t) = none) :
    findLabel (c :: t) = (findLabel t).map (fun x => (c :: x.1, x.2.1, x.2.2)) := by
  have e : findLabel (c :: t)
      = match tryLabelAt (c :: t) with
        | some (m, rest) => some ([], m, rest)
        | none => (findLabel t).map (fun x => (c :: x.1, x.2.1, x.2.2)) := rfl
  rw [e, h]

theorem findLabel_cons_some {c : Char} {t m rest : List Char}
    (h : tryLabelAt (c :: t) = some (m, rest)) :
    findLabel (c :: t) = some ([], m, rest) := by
  have e : findLabel (c :: t)
      = match tryLabelAt (c :: t) with
        | some (m, rest) => some ([], m, rest)
        | none => (findLabel t).map (fun x => (c :: x.1, x.2.1, x.2.2)) := rfl
  rw [e, h]

theorem findLabel_append_nocolon {u r : List Char} (hu : u.all (fun c => !(c = ':')) = true) :
    findLabel (u ++ r) = (findLabel r).map (fun x => (u ++ x.1, x.2.1, x.2.2)) := by
  induction u with
  | nil => rw [List.nil_append]; cases findLabel r <;> simp
  | cons c t ih =>
    have hc : ¬ c = ':' := by
      intro hce
      have : (!(c = ':')) = true := by simp_all
      rw [hce] at this
      simp at this
    rw [List.cons_append, findLabel_cons_none (tryLabelAt_ne hc), ih (by simp_all)]
    cases findLabel r <;> simp

theorem tryLabelAt_hit {L r3 : List Char} (hL : L.all isWordChar = true) (hLn : L ≠ []) :
    tryLabelAt (':' :: (L ++ ')' :: r3)) = some (':' :: L, ')' :: r3) := by
  obtain ⟨c0, L2, rfl⟩ : ∃ c0 L2, L = c0 :: L2 := by
    cases L with
    | nil => exact absurd rfl hLn
    | cons a b => exact ⟨a, b, rfl⟩
  have hw : ((c0 :: L2) ++ ')' :: r3).takeWhile isWordChar = c0 :: L2 := by
    rw [takeWhile_append_all hL, takeWhile_cons_neg (by decide), List.append_nil]
  have hdw : ((c0 :: L2) ++ ')' :: r3).dropWhile isWordChar = ')' :: r3 := by
    rw [dropWhile_append_all hL, dropWhile_cons_neg (by decide)]
  simp only [tryLabelAt, if_pos rfl, hw, hdw, List.isEmpty_cons, takeWhile_cons_neg
    (show isJsWs ')' = false by decide), dropWhile_cons_neg (show isJsWs ')' = false by decide)]
  simp

theorem injectProps_of_found {props l b m rest : List Char}
    (h : findLabel l = some (b, m, rest)) :
    injectProps props l = b ++ m ++ ' ' :: '\x7b' :: ' ' :: props ++ ' ' :: '\x7d' :: rest := by
  simp only [injectProps, h]

theorem injectProps_of_none {props l : List Char} (h : findLabel l = none) :
    injectProps props l = l := by
  simp only [injectProps, h]

/-! ### `stripVars` facts -/

theorem svGo_none_cons_ne {c : Char} {t : List Char} (h : ¬ c = '(') :
    svGo none (c :: t) = c :: svGo none t := by
  simp only [svGo]
  rw [if_neg h]

theorem svGo_none_open {t : List Char} : svGo none ('(' :: t) = svGo (some []) t := by
  simp [svGo]

theorem svGo_none_append {u r : List Char} (hu : u.all (fun c => !(c = '(')) = true) :
    svGo none (u ++ r) = u ++ svGo none r := by
  induction u with
  | nil => simp
  | cons c t ih =>
    have hc : ¬ c = '(' := by
      intro hce
      have : (!(c = '(')) = true := by simp_all
      rw [hce] at this
      simp at this
    rw [List.cons_append, svGo_none_cons_ne hc, ih (by simp_all), List.cons_append]

theorem svGo_none_id {u : List Char} (hu : u.all (fun c => !(c = '(')) = true) :
    svGo none u = u := by
  have h2 := svGo_none_append (u := u) (r := []) hu
  have h0 : svGo none ([] : List Char) = [] := rfl
  simpa [h0] using h2

theorem svGo_buf_word {x : List Char} : ∀ {buf r : List Char}, x.all isWordChar = true →
    (buf.isEmpty = false ∨ x ≠ []) →
    svGo (some buf) (x ++ ':' :: r) = '(' :: ':' :: svGo none r := by
  induction x with
  | nil =>
    intro buf r _ hne
    have hbuf : buf.isEmpty = false := by
      rcases hne with h | h
      · exact h
      · exact absurd rfl h
    rw [List.nil_append]
    simp only [svGo]
    rw [if_neg (by decide : ¬ isWordChar ':' = true)]
    simp [hbuf]
  | cons c x2 ih =>
    intro buf r hx hne
    have hc : isWordChar c = true := by simp_all
    rw [List.cons_append]
    simp only [svGo]
    rw [if_pos hc]
    exact ih (by simp_all) (Or.inl (by simp))

/-! ### `splitAnd` facts -/

theorem splitAnd_of_none {l : List Char} (h : findSepAnd l = none) : splitAnd l = [l] := by
  unfold splitAnd
  cases hl : l.length with
  | zero => rfl
  | succ n => simp only [splitAndF, h]

/-! ### `padLine`, `padBlockL` and `hasWhere` facts -/

theorem padLine_nl {t : List Char} : padLine ('\n' :: t) = '\n' :: '\t' :: padLine t := by
  simp [padLine]

theorem padLine_cons_ne {c : Char} {t : List Char} (h : ¬ c = '\n') :
    padLine (c :: t) = c :: padLine t := by
  simp [padLine, h]

theorem hasWhere_cons (c : Char) (t : List Char) :
    hasWhere (c :: t) = (ciStartsWith whereTok (c :: t) || hasWhere t) := rfl

theorem ciStartsWith_padLine {p : List Char}
    (hp : ∀ a ∈ p, ciEq '\n' a = false ∧ ciEq '\t' a = false) :
    ∀ t, ciStartsWith p (padLine t) = ciStartsWith p t := by
  intro t
  induction t generalizing p with
  | nil => rfl
  | cons c t2 ih =>
    by_cases hc : c = '\n'
    · subst hc
      rw [padLine_nl]
      cases p with
      | nil => rfl
      | cons a ps =>
        rw [ciStartsWith_cons, ciStartsWith_cons, (hp a (by simp)).1]
        simp
    · rw [padLine_cons_ne hc]
      cases p with
      | nil => rfl
      | cons a ps =>
        rw [ciStartsWith_cons, ciStartsWith_cons, ih (fun x hx => hp x (by simp [hx]))]

theorem hasWhere_padLine : ∀ t, hasWhere (padLine t) = hasWhere t := by
  intro t
  induction t with
  | nil => rfl
  | cons c t2 ih =>
    by_cases hc : c = '\n'
    · subst hc
      rw [padLine_nl, hasWhere_cons, hasWhere_cons, hasWhere_cons ('\n') t2]
      have h1 : ciStartsWith whereTok ('\n' :: '\t' :: padLine t2) = false := by
        simp only [whereTok, ciStartsWith_cons]
        rw [show ciEq '\n' 'w' = false from by decide]
        simp
      have h2 : ciStartsWith whereTok ('\t' :: padLine t2) = false := by
        simp only [whereTok, ciStartsWith_cons]
        rw [show ciEq '\t' 'w' = false from by decide]
        simp
      have h3 : ciStartsWith whereTok ('\n' :: t2) = false := by
        simp only [whereTok, ciStartsWith_cons]
        rw [show ciEq '\n' 'w' = false from by decide]
        simp
      rw [h1, h2, h3, ih]
      simp
    · rw [padLine_cons_ne hc, hasWhere_cons, hasWhere_cons, ih]
      have hsw : ciStartsWith whereTok (c :: padLine t2) = ciStartsWith whereTok (c :: t2) := by
        simp only [whereTok, ciStartsWith_cons]
        rw [ciStartsWith_padLine (p := 'h' :: 'e' :: 'r' :: 'e' :: [])
          (by
            intro a ha
            simp only [List.mem_cons, List.not_mem_nil, or_false] at ha
            rcases ha with rfl | rfl | rfl | rfl <;> exact ⟨by decide, by decide⟩) t2]
      rw [hsw]

theorem hasWhere_padBlockL (l : List Char) : hasWhere (padBlockL l) = hasWhere l := by
  show hasWhere ('\t' :: padLine l) = hasWhere l
  rw [hasWhere_cons]
  have ht : ciStartsWith whereTok ('\t' :: padLine l) = false := by
    simp only [whereTok, ciStartsWith_cons]
    rw [show ciEq '\t' 'w' = false from by decide]
    simp
  rw [ht, hasWhere_padLine]
  simp

theorem hasWhere_tail {c : Char} {t : List Char} (h : hasWhere (c :: t) = false) :
    hasWhere t = false := by
  rw [hasWhere_cons] at h
  exact (Bool.or_eq_false_iff.mp h).2

theorem hasWhere_dropWhile {p : Char → Bool} {l : List Char} (h : hasWhere l = false) :
    hasWhere (l.dropWhile p) = false := by
  induction l with
  | nil => simpa using h
  | cons c t ih =>
    rw [List.dropWhile_cons]
    by_cases hp : p c = true
    · rw [if_pos hp]; exact ih (hasWhere_tail h)
    · rw [if_neg hp]; exact h

theorem hasWhere_drop {l : List Char} (n : Nat) (h : hasWhere l = false) :
    hasWhere (l.drop n) = false := by
  induction n generalizing l with
  | zero => simpa using h
  | succ n ih =>
    cases l with
    | nil => simpa using h
    | cons c t => rw [List.drop_succ_cons]; exact ih (hasWhere_tail h)

theorem hasWhere_stripMatchL {l : List Char} (h : hasWhere l = false) :
    hasWhere (stripMatchL l) = false := by
  simp only [stripMatchL]
  by_cases hsw : ciStartsWith matchTok (l.dropWhile isJsWs) = true
  · rw [if_pos hsw]
    cases h5 : (l.dropWhile isJsWs).drop 5 with
    | nil => simp only [h5]; exact h
    | cons c rest =>
      simp only [h5]
      by_cases hc : isJsWs c = true
      · rw [if_pos hc]
        have hcr : hasWhere (c :: rest) = false := by
          rw [← h5]; exact hasWhere_drop 5 (hasWhere_dropWhile h)
        exact hasWhere_dropWhile hcr
      · rw [if_neg hc]; exact h
  · rw [if_neg hsw]; exact h

theorem findWhere_none_of_no_where {l : List Char} (h : hasWhere l = false) :
    findWhere l = none := by
  induction l with
  | nil => rfl
  | cons c t ih =>
    have hsw : ciStartsWith whereTok (c :: t) = false := by
      rw [hasWhere_cons] at h
      exact (Bool.or_eq_false_iff.mp h).1
    have hm : matchWhereAt (c :: t) = none := by
      simp only [matchWhereAt]
      rw [if_neg (by simp [hsw])]
    rw [findWhere_cons_none hm, ih (hasWhere_tail h)]
    rfl

/-! ### Condition texts and their parsing -/

/-- A nonempty identifier made of word characters (alias, label or property
name). -/
def IdentOk (u : List Char) : Prop := u ≠ [] ∧ u.all isWordChar = true

/-- A nonempty value token: word characters or `$`, the shape of literals and
parameter references such as `1` or `$val`. -/
def ValOk (v : List Char) : Prop := v ≠ [] ∧ v.all isValChar = true

/-- The token is not, case-insensitively, the bare word `AND` (which would be
eaten by the condition splitter when a further condition follows). -/
def NotAndTok (v : List Char) : Prop := ¬(v.length = 3 ∧ ciStartsWith andTok v = true)

/-- The text of one rendered equality condition, `x.k = v`. -/
def condText (x k v : List Char) : List Char := x ++ ('.' :: k) ++ (' ' :: '=' :: ' ' :: v)

theorem word_safe_eq {c : Char} (h : isWordChar c = true) : (!isJsWs c && !(c = '=')) = true := by
  rw [not_ws_of_word h]
  simp [word_ne_eq h]

theorem val_safe_eq {c : Char} (h : isValChar c = true) : (!isJsWs c && !(c = '=')) = true := by
  rw [not_ws_of_val h]
  simp [val_ne_eq h]

theorem word_safe_dot {c : Char} (h : isWordChar c = true) : (!(c = '.')) = true := by
  simp [word_ne_dot h]

theorem word_not_ws_b {c : Char} (h : isWordChar c = true) : (!isJsWs c) = true := by
  rw [not_ws_of_word h]; rfl

theorem val_not_ws_b {c : Char} (h : isValChar c = true) : (!isJsWs c) = true := by
  rw [not_ws_of_val h]; rfl

theorem findSepEq_cons_some {c : Char} {t after : List Char} (h : trySepEq (c :: t) = some after) :
    findSepEq (c :: t) = some ([], after) := by
  have e : findSepEq (c :: t)
      = match trySepEq (c :: t) with
        | some a => some ([], a)
        | none => (findSepEq t).map (fun p => (c :: p.1, p.2)) := rfl
  rw [e, h]

theorem findSepAnd_cons_some {c : Char} {t after : List Char}
    (h : trySepAnd (c :: t) = some after) :
    findSepAnd (c :: t) = some ([], after) := by
  have e : findSepAnd (c :: t)
      = match trySepAnd (c :: t) with
        | some a => some ([], a)
        | none => (findSepAnd t).map (fun p => (c :: p.1, p.2)) := rfl
  rw [e, h]

theorem findWhere_cons_some {c : Char} {t cap : List Char} (h : matchWhereAt (c :: t) = some cap) :
    findWhere (c :: t) = some ([], cap) := by
  have e : findWhere (c :: t)
      = match matchWhereAt (c :: t) with
        | some cap => some ([], cap)
        | none => (findWhere t).map (fun p => (c :: p.1, p.2)) := rfl
  rw [e, h]

theorem findSepAnd_none_of_notws {v : List Char} (hv : v.all (fun c => !isJsWs c) = true) :
    findSepAnd v = none := by
  have h2 := findSepAnd_append_notws (u := v) (r := []) hv
  simpa using h2

/-- The separator attempt succeeds on a literal ` AND ` followed by text that
begins with no whitespace. -/
theorem trySepAnd_hit {J : List Char} (hJ : J.dropWhile isJsWs = J) :
    trySepAnd (' ' :: 'A' :: 'N' :: 'D' :: ' ' :: J) = some J := by
  have hsp : isJsWs ' ' = true := by decide
  have hA : isJsWs 'A' = false := by decide
  have hrun : (' ' :: 'A' :: 'N' :: 'D' :: ' ' :: J).takeWhile isJsWs
      = ' ' :: ('A' :: 'N' :: 'D' :: ' ' :: J).takeWhile isJsWs := by
    simp [List.takeWhile_cons, hsp]
  have hdw : (' ' :: 'A' :: 'N' :: 'D' :: ' ' :: J).dropWhile isJsWs
      = 'A' :: 'N' :: 'D' :: ' ' :: J := by
    simp [List.dropWhile_cons, hsp, hA]
  have hsw : ciStartsWith andTok ('A' :: 'N' :: 'D' :: ' ' :: J) = true := by
    simp only [andTok, ciStartsWith_cons, ciStartsWith_nil, Bool.and_eq_true]
    refine ⟨by decide, by decide, by decide, trivial⟩
  simp only [trySepAnd, hrun, hdw, List.isEmpty_cons, Bool.false_eq_true, if_false, hsw,
    if_true, List.drop_succ_cons, List.drop_zero, hsp, List.dropWhile_cons, hJ]

/-- Parsing a well-formed condition text yields the stripped key and value. -/
theorem conditionEntry_condText {x k v : List Char} (hx : IdentOk x) (hk : IdentOk k)
    (hv : ValOk v) : conditionEntry (condText x k v) = [(k, v)] := by
  have hu : (x ++ '.' :: k).all (fun c => !isJsWs c && !(c = '=')) = true := by
    simp only [List.all_append, List.all_cons, Bool.and_eq_true]
    exact ⟨all_imp (fun c => word_safe_eq) hx.2, by decide,
      all_imp (fun c => word_safe_eq) hk.2⟩
  obtain ⟨v0, v2, rfl⟩ : ∃ v0 v2, v = v0 :: v2 := by
    cases v with
    | nil => exact absurd rfl hv.1
    | cons a b => exact ⟨a, b, rfl⟩
  have hvdw : (v0 :: v2).dropWhile isJsWs = v0 :: v2 :=
    dropWhile_cons_neg (not_ws_of_val (by have := hv.2; simp_all))
  have hsplit : findSepEq (condText x k (v0 :: v2)) = some (x ++ '.' :: k, v0 :: v2) := by
    show findSepEq ((x ++ '.' :: k) ++ (' ' :: '=' :: ' ' :: (v0 :: v2)))
        = some (x ++ '.' :: k, v0 :: v2)
    rw [findSepEq_append_safe hu,
      findSepEq_cons_some (trySepEq_hit hvdw)]
    simp
  have hvnone : findSepEq (v0 :: v2) = none :=
    findSepEq_none_of_safe (all_imp (fun c => val_safe_eq) hv.2)
  have hparse : parseCondition (condText x k (v0 :: v2)) = (x ++ '.' :: k, v0 :: v2) := by
    simp only [parseCondition, hsplit, hvnone]
  simp only [conditionEntry, hparse,
    lastDotSeg_append (all_imp (fun c => word_safe_dot) hk.2)]

/-- A single well-formed condition text hosts no `AND` separator. -/
theorem findSepAnd_condText_end {x k v : List Char} (hx : IdentOk x) (hk : IdentOk k)
    (hv : ValOk v) : findSepAnd (condText x k v) = none := by
  have hu : (x ++ '.' :: k).all (fun c => !isJsWs c) = true := by
    simp only [List.all_append, List.all_cons, Bool.and_eq_true]
    exact ⟨all_imp (fun c => word_not_ws_b) hx.2, by decide,
      all_imp (fun c => word_not_ws_b) hk.2⟩
  show findSepAnd ((x ++ '.' :: k) ++ (' ' :: '=' :: ' ' :: v)) = none
  rw [findSepAnd_append_notws hu,
    findSepAnd_cons_none (trySepAnd_ws_then (by decide) (by decide) (by decide)),
    findSepAnd_cons_none (trySepAnd_none_of_not_ws (by decide)),
    findSepAnd_cons_none (trySepAnd_space_val_end hv.2),
    findSepAnd_none_of_notws (all_imp (fun c => val_not_ws_b) hv.2)]
  simp

/-- A well-formed condition text followed by a literal ` AND ` and more text
finds exactly that separator. -/
theorem findSepAnd_condText_sep {x k v J : List Char} (hx : IdentOk x) (hk : IdentOk k)
    (hv : ValOk v) (hvand : NotAndTok v) (hJ : J.dropWhile isJsWs = J) :
    findSepAnd (condText x k v ++ (' ' :: 'A' :: 'N' :: 'D' :: ' ' :: J))
      = some (condText x k v, J) := by
  have hu : (x ++ '.' :: k).all (fun c => !isJsWs c) = true := by
    simp only [List.all_append, List.all_cons, Bool.and_eq_true]
    exact ⟨all_imp (fun c => word_not_ws_b) hx.2, by decide,
      all_imp (fun c => word_not_ws_b) hk.2⟩
  have hws : ∀ d, (' ' :: 'A' :: 'N' :: 'D' :: ' ' :: J).head? = some d → isJsWs d = true := by
    intro d hd
    simp only [List.head?_cons, Option.some_inj] at hd
    rw [← hd]
    decide
  have step : findSepAnd (condText x k v ++ (' ' :: 'A' :: 'N' :: 'D' :: ' ' :: J))
      = findSepAnd ((x ++ '.' :: k) ++ (' ' :: '=' :: ' ' ::
          (v ++ (' ' :: 'A' :: 'N' :: 'D' :: ' ' :: J)))) := by
    show findSepAnd (((x ++ ('.' :: k)) ++ (' ' :: '=' :: ' ' :: v))
        ++ (' ' :: 'A' :: 'N' :: 'D' :: ' ' :: J)) = _
    rw [List.append_assoc]
    rfl
  rw [step, findSepAnd_append_notws hu,
    findSepAnd_cons_none (trySepAnd_ws_then (by decide) (by decide) (by decide)),
    findSepAnd_cons_none (trySepAnd_none_of_not_ws (by decide)),
    findSepAnd_cons_none (trySepAnd_space_val_sep hv.2 hv.1 hvand hws)]
  have hvblock : findSepAnd (v ++ (' ' :: 'A' :: 'N' :: 'D' :: ' ' :: J))
      = (findSepAnd (' ' :: 'A' :: 'N' :: 'D' :: ' ' :: J)).map
          (fun p => (v ++ p.1, p.2)) :=
    findSepAnd_append_notws (all_imp (fun c => val_not_ws_b) hv.2)
  rw [hvblock, findSepAnd_cons_some (trySepAnd_hit hJ)]
  simp [condText, List.append_assoc]

/-! ### Splitting a joined condition list -/

/-- The ` AND `-joined text of a list of condition texts. -/
def andJoin (cs : List (List Char)) : List Char :=
  joinSep (' ' :: 'A' :: 'N' :: 'D' :: ' ' :: []) cs

/-- Well-formedness of one (alias, key, value) condition triple. -/
def CondOk (t : (List Char) × (List Char) × (List Char)) : Prop :=
  IdentOk t.1 ∧ IdentOk t.2.1 ∧ ValOk t.2.2 ∧ NotAndTok t.2.2

/-- The rendered condition text of a triple. -/
def condOf (t : (List Char) × (List Char) × (List Char)) : List Char :=
  condText t.1 t.2.1 t.2.2

instance (u : List Char) : Decidable (IdentOk u) := by unfold IdentOk; infer_instance

instance (v : List Char) : Decidable (ValOk v) := by unfold ValOk; infer_instance

instance (v : List Char) : Decidable (NotAndTok v) := by unfold NotAndTok; infer_instance

instance (t : (List Char) × (List Char) × (List Char)) : Decidable (CondOk t) := by
  unfold CondOk; infer_instance

theorem joinSep_cons2 (s x y : List Char) (t : List (List Char)) :
    joinSep s (x :: y :: t) = x ++ s ++ joinSep s (y :: t) := rfl

theorem joinSep_cons_head (s x : List Char) (t : List (List Char)) :
    ∃ X, joinSep s (x :: t) = x ++ X := by
  cases t with
  | nil => exact ⟨[], by simp [joinSep]⟩
  | cons y t2 => exact ⟨s ++ joinSep s (y :: t2), by rw [joinSep_cons2, List.append_assoc]⟩

theorem condText_cons {k v : List Char} (c0 : Char) (x2 : List Char) :
    condText (c0 :: x2) k v = c0 :: ((x2 ++ ('.' :: k)) ++ (' ' :: '=' :: ' ' :: v)) := rfl

theorem condOf_ne_nil {t : (List Char) × (List Char) × (List Char)} (h : CondOk t) :
    condOf t ≠ [] := by
  obtain ⟨c0, x2, hx⟩ : ∃ c0 x2, t.1 = c0 :: x2 := by
    cases hx : t.1 with
    | nil => exact absurd hx h.1.1
    | cons a b => exact ⟨a, b, rfl⟩
  rw [condOf, hx, condText_cons]
  simp

theorem condOf_dropWhile {t : (List Char) × (List Char) × (List Char)} (h : CondOk t) :
    (condOf t).dropWhile isJsWs = condOf t := by
  obtain ⟨c0, x2, hx⟩ : ∃ c0 x2, t.1 = c0 :: x2 := by
    cases hx : t.1 with
    | nil => exact absurd hx h.1.1
    | cons a b => exact ⟨a, b, rfl⟩
  have hc0 : isWordChar c0 = true := by
    have := h.1.2
    rw [hx] at this
    simp_all
  rw [condOf, hx, condText_cons]
  exact dropWhile_cons_neg (not_ws_of_word hc0)

theorem splitAndF_andJoin :
    ∀ (ts : List ((List Char) × (List Char) × (List Char))), ts ≠ [] →
      (∀ t ∈ ts, CondOk t) → ∀ fuel : Nat,
      (andJoin (ts.map condOf)).length ≤ fuel →
      splitAndF fuel (andJoin (ts.map condOf)) = ts.map condOf := by
  intro ts
  induction ts with
  | nil => intro h; exact absurd rfl h
  | cons t1 rest ih =>
    intro _ h fuel hfuel
    have h1 : CondOk t1 := h t1 (by simp)
    cases rest with
    | nil =>
      have hnone : findSepAnd (condOf t1) = none :=
        findSepAnd_condText_end h1.1 h1.2.1 h1.2.2.1
      have hsing : andJoin ([t1].map condOf) = condOf t1 := rfl
      rw [hsing]
      cases fuel with
      | zero => rfl
      | succ n => simp only [splitAndF, hnone]; rfl
    | cons t2 cs =>
      have h2 : CondOk t2 := h t2 (by simp)
      have hj2 : andJoin ((t1 :: t2 :: cs).map condOf)
          = condOf t1 ++ (' ' :: 'A' :: 'N' :: 'D' :: ' ' :: andJoin ((t2 :: cs).map condOf)) := by
        have e1 : (t1 :: t2 :: cs).map condOf = condOf t1 :: condOf t2 :: cs.map condOf := rfl
        have e2 : (t2 :: cs).map condOf = condOf t2 :: cs.map condOf := rfl
        rw [andJoin, e1, joinSep_cons2, List.append_assoc, andJoin, e2]
        rfl
      have hJdw : (andJoin ((t2 :: cs).map condOf)).dropWhile isJsWs
          = andJoin ((t2 :: cs).map condOf) := by
        obtain ⟨X, hX⟩ := joinSep_cons_head (' ' :: 'A' :: 'N' :: 'D' :: ' ' :: [])
          (condOf t2) (cs.map condOf)
        have e2 : andJoin ((t2 :: cs).map condOf)
            = joinSep (' ' :: 'A' :: 'N' :: 'D' :: ' ' :: []) (condOf t2 :: cs.map condOf) := rfl
        obtain ⟨c0, x2, hx⟩ : ∃ c0 x2, t2.1 = c0 :: x2 := by
          cases hx : t2.1 with
          | nil => exact absurd hx h2.1.1
          | cons a b => exact ⟨a, b, rfl⟩
        have hc0 : isWordChar c0 = true := by
          have := h2.1.2
          rw [hx] at this
          simp_all
        rw [e2, hX, condOf, hx, condText_cons, List.cons_append]
        exact dropWhile_cons_neg (not_ws_of_word hc0)
      have hsep : findSepAnd (condOf t1
          ++ (' ' :: 'A' :: 'N' :: 'D' :: ' ' :: andJoin ((t2 :: cs).map condOf)))
          = some (condOf t1, andJoin ((t2 :: cs).map condOf)) :=
        findSepAnd_condText_sep h1.1 h1.2.1 h1.2.2.1 h1.2.2.2 hJdw
      have hc1pos : 0 < (condOf t1).length := List.length_pos.mpr (condOf_ne_nil h1)
      cases fuel with
      | zero =>
        exfalso
        rw [hj2] at hfuel
        simp only [List.length_append, List.length_cons, Nat.le_zero] at hfuel
        omega
      | succ n =>
        rw [hj2]
        simp only [splitAndF, hsep]
        have hlen : (andJoin ((t2 :: cs).map condOf)).length ≤ n := by
          rw [hj2] at hfuel
          simp only [List.length_append, List.length_cons] at hfuel
          omega
        rw [ih (by simp) (fun t ht => h t (by simp [ht])) n hlen]
        rfl

theorem splitAnd_andJoin {ts : List ((List Char) × (List Char) × (List Char))} (hne : ts ≠ [])
    (h : ∀ t ∈ ts, CondOk t) :
    splitAnd (andJoin (ts.map condOf)) = ts.map condOf :=
  splitAndF_andJoin ts hne h _ le_rfl

theorem condPiece_pair (k v : List Char) : condPiece [(k, v)] = k ++ ':' :: ' ' :: v := rfl

/-- The properties string built from a well-formed ` AND `-joined condition
list is the `", "`-joined list of `key: value` pairs, in order. -/
theorem propertiesOf_andJoin {ts : List ((List Char) × (List Char) × (List Char))}
    (hne : ts ≠ []) (h : ∀ t ∈ ts, CondOk t) :
    propertiesOf (andJoin (ts.map condOf))
      = joinSep (',' :: ' ' :: []) (ts.map (fun t => t.2.1 ++ ':' :: ' ' :: t.2.2)) := by
  rw [propertiesOf, splitAnd_andJoin hne h]
  congr 1
  rw [List.map_map]
  refine List.map_congr_left ?_
  intro t ht
  have hok := h t ht
  show condPiece (conditionEntry (condOf t)) = t.2.1 ++ ':' :: ' ' :: t.2.2
  rw [condOf, conditionEntry_condText hok.1 hok.2.1 hok.2.2.1, condPiece_pair]

/-! ### End-to-end helpers -/

theorem padLine_id {s : List Char} (h : s.all (fun c => !(c = '\n')) = true) :
    padLine s = s := by
  induction s with
  | nil => rfl
  | cons c t ih =>
    have hc : ¬ c = '\n' := by
      intro hce
      have : (!(c = '\n')) = true := by simp_all
      rw [hce] at this
      simp at this
    rw [padLine_cons_ne hc, ih (by simp_all)]

theorem padBlockL_single {s : List Char} (h : s.all (fun c => !(c = '\n')) = true) :
    padBlockL s = '\t' :: s := by
  rw [padBlockL, padLine_id h]

theorem stripMatchL_of_dropWhile {l r : List Char}
    (hdw : l.dropWhile isJsWs = 'M' :: 'A' :: 'T' :: 'C' :: 'H' :: ' ' :: '(' :: r) :
    stripMatchL l = '(' :: r := by
  have hsw : ciStartsWith matchTok ('M' :: 'A' :: 'T' :: 'C' :: 'H' :: ' ' :: '(' :: r) = true := by
    simp only [matchTok, ciStartsWith_cons, ciStartsWith_nil, Bool.and_eq_true]
    refine ⟨by decide, by decide, by decide, by decide, by decide, trivial⟩
  have hdrop : ('M' :: 'A' :: 'T' :: 'C' :: 'H' :: ' ' :: '(' :: r).drop 5 = ' ' :: '(' :: r := rfl
  simp only [stripMatchL, hdw, hsw, if_true, hdrop]
  simp only [show isJsWs ' ' = true from by decide, if_true, List.dropWhile_cons,
    show isJsWs '(' = false from by decide, Bool.false_eq_true, if_false]

theorem stripMatchL_tabbed (r : List Char) :
    stripMatchL ('\t' :: 'M' :: 'A' :: 'T' :: 'C' :: 'H' :: ' ' :: '(' :: r) = '(' :: r := by
  refine stripMatchL_of_dropWhile ?_
  simp [List.dropWhile_cons, show isJsWs '\t' = true from by decide,
    show isJsWs 'M' = false from by decide]

theorem stripMatchL_plain (r : List Char) :
    stripMatchL ('M' :: 'A' :: 'T' :: 'C' :: 'H' :: ' ' :: '(' :: r) = '(' :: r := by
  refine stripMatchL_of_dropWhile ?_
  simp [List.dropWhile_cons, show isJsWs 'M' = false from by decide]

theorem headSafeWhere_cons {c : Char} {X : List Char} (h1 : isJsWs c = false)
    (h2 : ∀ x ∈ whereTok, ciEq c x = false) : headSafeWhere (c :: X) := by
  intro d hd
  simp only [List.head?_cons, Option.some_inj] at hd
  subst hd
  exact ⟨h1, h2⟩

theorem headSafeWhere_colon {X : List Char} : headSafeWhere (':' :: X) := by
  refine headSafeWhere_cons (by decide) ?_
  intro x hx
  simp only [whereTok, List.mem_cons, List.not_mem_nil, or_false] at hx
  rcases hx with rfl | rfl | rfl | rfl | rfl <;> decide

theorem headSafeWhere_rparen {X : List Char} : headSafeWhere (')' :: X) := by
  refine headSafeWhere_cons (by decide) ?_
  intro x hx
  simp only [whereTok, List.mem_cons, List.not_mem_nil, or_false] at hx
  rcases hx with rfl | rfl | rfl | rfl | rfl <;> decide

theorem headSafeWhere_dash {X : List Char} : headSafeWhere ('-' :: X) := by
  refine headSafeWhere_cons (by decide) ?_
  intro x hx
  simp only [whereTok, List.mem_cons, List.not_mem_nil, or_false] at hx
  rcases hx with rfl | rfl | rfl | rfl | rfl <;> decide

/-- The single rendered line `MATCH (a:L) WHERE a.p = v`. -/
def singleLine (a L p v : List Char) : List Char :=
  String.toList "MATCH (" ++ (a ++ (':' :: (L ++ (String.toList ") WHERE " ++ condText a p v))))

/-- The rewrite of the indented single-line fragment `MATCH (a:L) WHERE a.p = v`:
the indentation and the `MATCH` keyword are stripped, the condition is inlined
as a properties literal after the label, the node variable disappears, and the
space that stood before `WHERE` survives as a trailing space. -/
theorem transform_single {a L p v : List Char} (ha : IdentOk a) (hL : IdentOk L)
    (hp : IdentOk p) (hv : ValOk v) :
    transformCypherQuery ('\t' :: singleLine a L p v)
      = Except.ok ('(' :: ':' :: (L ++ (' ' :: '\x7b' :: ' ' ::
          (p ++ (':' :: ' ' :: (v ++ (' ' :: '\x7d' :: ')' :: ' ' :: []))))))) := by
  obtain ⟨a0, a2, rfl⟩ : ∃ a0 a2, a = a0 :: a2 := by
    cases ha1 : a with
    | nil => exact absurd ha1 ha.1
    | cons x y => exact ⟨x, y, rfl⟩
  have ha0 : isWordChar a0 = true := by have := ha.2; simp_all
  have hTdw : (condText (a0 :: a2) p v).dropWhile isJsWs = condText (a0 :: a2) p v := by
    rw [condText_cons]
    exact dropWhile_cons_neg (not_ws_of_word ha0)
  have hTlt : (condText (a0 :: a2) p v).any isLineTerm = false := by
    have h1 : (a0 :: a2).any isLineTerm = false :=
      any_eq_false_of_all (fun c => not_lineTerm_of_word) ha.2
    have h2 : p.any isLineTerm = false :=
      any_eq_false_of_all (fun c => not_lineTerm_of_word) hp.2
    have h3 : v.any isLineTerm = false :=
      any_eq_false_of_all (fun c => not_lineTerm_of_val) hv.2
    have e : condText (a0 :: a2) p v
        = (((a0 :: a2) ++ ('.' :: [])) ++ p) ++ ((' ' :: '=' :: ' ' :: []) ++ v) := by
      simp [condText, List.append_assoc]
    rw [e]
    simp only [List.any_append, h1, h2, h3,
      show ('.' :: []).any isLineTerm = false from by decide,
      show (' ' :: '=' :: ' ' :: []).any isLineTerm = false from by decide,
      Bool.or_false, Bool.false_or]
  have hThd : (condText (a0 :: a2) p v).head? ≠ some '(' := by
    rw [condText_cons]
    intro hc
    simp only [List.head?_cons] at hc
    exact word_ne_lparen ha0 (Option.some_inj.mp hc)
  have hTlast : (condText (a0 :: a2) p v).getLast? ≠ some ')' := by
    have e : condText (a0 :: a2) p v
        = ((a0 :: a2) ++ ('.' :: p) ++ (' ' :: '=' :: ' ' :: [])) ++ v := by
      rw [condText]
      simp [List.append_assoc]
    rw [e, List.getLast?_append_of_ne_nil _ hv.1]
    intro hg
    have hd : ')' ∈ v := List.mem_of_mem_getLast? hg
    have hall := hv.2
    simp only [List.all_eq_true] at hall
    exact val_ne_rparen (hall _ hd) rfl
  have hstrip : stripMatchL ('\t' :: singleLine (a0 :: a2) L p v)
      = '(' :: ((a0 :: a2) ++ (':' :: (L ++ (')' :: ' ' ::
          'W' :: 'H' :: 'E' :: 'R' :: 'E' :: ' ' :: condText (a0 :: a2) p v)))) := by
    have e : '\t' :: singleLine (a0 :: a2) L p v
        = '\t' :: 'M' :: 'A' :: 'T' :: 'C' :: 'H' :: ' ' :: '(' ::
            ((a0 :: a2) ++ (':' :: (L ++ (')' :: ' ' ::
              'W' :: 'H' :: 'E' :: 'R' :: 'E' :: ' ' :: condText (a0 :: a2) p v)))) := rfl
    rw [e, stripMatchL_tabbed]
  have hfw : findWhere ('(' :: ((a0 :: a2) ++ (':' :: (L ++ (')' :: ' ' ::
      'W' :: 'H' :: 'E' :: 'R' :: 'E' :: ' ' :: condText (a0 :: a2) p v)))))
      = some ('(' :: ((a0 :: a2) ++ (':' :: (L ++ (')' :: ' ' :: [])))),
          condText (a0 :: a2) p v) := by
    rw [findWhere_cons_skip (by decide), findWhere_append_word ha.2 headSafeWhere_colon,
      findWhere_cons_skip (by decide), findWhere_append_word hL.2 headSafeWhere_rparen,
      findWhere_cons_skip (by decide), findWhere_cons_skip (by decide),
      findWhere_cons_some (matchWhereAt_hit hTlt hTdw hThd hTlast)]
    simp
  have hsingleSplit : splitAnd (condText (a0 :: a2) p v) = [condText (a0 :: a2) p v] :=
    splitAnd_of_none (findSepAnd_condText_end ha hp hv)
  have hprops : propertiesOf (condText (a0 :: a2) p v) = p ++ ':' :: ' ' :: v := by
    rw [propertiesOf, hsingleSplit]
    show joinSep (',' :: ' ' :: []) [condPiece (conditionEntry (condText (a0 :: a2) p v))]
        = p ++ ':' :: ' ' :: v
    rw [conditionEntry_condText ha hp hv, condPiece_pair]
    rfl
  have hflabel : findLabel ('(' :: ((a0 :: a2) ++ (':' :: (L ++ (')' :: ' ' :: [])))))
      = some ('(' :: (a0 :: a2), ':' :: L, ')' :: ' ' :: []) := by
    rw [findLabel_cons_none (tryLabelAt_ne (by decide)),
      findLabel_append_nocolon (all_imp (fun c hc => by simp [word_ne_colon hc]) ha.2),
      findLabel_cons_some (tryLabelAt_hit hL.2 hL.1)]
    simp
  have hcapne : (condText (a0 :: a2) p v).isEmpty = false := by
    rw [condText_cons]; rfl
  simp only [transformCypherQuery, hstrip, hfw, hcapne, Bool.false_eq_true, if_false, hprops]
  rw [injectProps_of_found hflabel]
  have hnorm : ('(' :: (a0 :: a2)) ++ (':' :: L) ++ ' ' :: '\x7b' :: ' ' ::
      (p ++ ':' :: ' ' :: v) ++ ' ' :: '\x7d' :: (')' :: ' ' :: [])
      = '(' :: ((a0 :: a2) ++ (':' :: (L ++ (' ' :: '\x7b' :: ' ' ::
          (p ++ (':' :: ' ' :: (v ++ (' ' :: '\x7d' :: ')' :: ' ' :: [])))))))) := by
    simp [List.append_assoc]
  rw [hnorm]
  have hb1 : (!(' ' = '(')) = true := by decide
  have hb2 : (!('\x7b' = '(')) = true := by decide
  have hb3 : (!(':' = '(')) = true := by decide
  have hb4 : (!('\x7d' = '(')) = true := by decide
  have hb5 : (!(')' = '(')) = true := by decide
  have hRall : (L ++ (' ' :: '\x7b' :: ' ' :: (p ++ (':' :: ' ' ::
      (v ++ (' ' :: '\x7d' :: ')' :: ' ' :: [])))))).all (fun c => !(c = '(')) = true := by
    have h1 : L.all (fun c => !(c = '(')) = true :=
      all_imp (fun c hc => by simp [word_ne_lparen hc]) hL.2
    have h2 : p.all (fun c => !(c = '(')) = true :=
      all_imp (fun c hc => by simp [word_ne_lparen hc]) hp.2
    have h3 : v.all (fun c => !(c = '(')) = true :=
      all_imp (fun c hc => by simp [val_ne_lparen hc]) hv.2
    simp [List.all_append, List.all_cons, h1, h2, h3, hb1, hb2, hb3, hb4, hb5]
  have hsv : stripVars ('(' :: ((a0 :: a2) ++ (':' :: (L ++ (' ' :: '\x7b' :: ' ' ::
      (p ++ (':' :: ' ' :: (v ++ (' ' :: '\x7d' :: ')' :: ' ' :: [])))))))))
      = '(' :: ':' :: (L ++ (' ' :: '\x7b' :: ' ' ::
          (p ++ (':' :: ' ' :: (v ++ (' ' :: '\x7d' :: ')' :: ' ' :: [])))))) := by
    rw [stripVars, svGo_none_open, svGo_buf_word ha.2 (Or.inr (by simp)),
      svGo_none_id hRall]
  rw [hsv]

theorem word_ne_nl {c : Char} (h : isWordChar c = true) : ¬ c = '\n' := by
  rintro rfl; exact absurd h (by decide)

theorem val_ne_nl {c : Char} (h : isValChar c = true) : ¬ c = '\n' := by
  rintro rfl; exact absurd h (by decide)

/-! ### The claims -/

/-- Claim C1, counterexample: for the subquery rendering to the single line
`MATCH (n:Label) WHERE n.prop = $val`, `getCypher` does not return
`EXISTS (\n\t(:Label \x7b prop: $val \x7d)\n)` as the claim states: the
`^\s*MATCH\s+` regex also strips the indentation tab, and a trailing space
survives where the WHERE clause was removed. -/
theorem claimC1_counterexample :
    getCypherL (String.toList "MATCH (n:Label) WHERE n.prop = $val")
      ≠ String.toList "EXISTS (\n\t(:Label \x7b prop: $val \x7d)\n)" := by
  decide

/-- Claim C1, amended: for every subquery whose render produces exactly the
single line `MATCH (a:L) WHERE a.p = v` (word-character alias, label and
property, word-or-`$` value), `Exists.getCypher` returns
`EXISTS (\n(:L \x7b p: v \x7d) \n)` — inline properties, no MATCH or WHERE
keyword — but with the block indentation stripped from the rewritten line and
a trailing space before the closing newline. -/
theorem claimC1_amended {a L p v : List Char} (ha : IdentOk a) (hL : IdentOk L)
    (hp : IdentOk p) (hv : ValOk v) :
    getCypherL (singleLine a L p v)
      = String.toList "EXISTS (\n(:" ++ (L ++ (String.toList " \x7b " ++
          (p ++ (String.toList ": " ++ (v ++ String.toList " \x7d) \n)"))))) := by
  have hA : a.all (fun c => !(c = '\n')) = true :=
    all_imp (fun c hc => by simp [word_ne_nl hc]) ha.2
  have hLn : L.all (fun c => !(c = '\n')) = true :=
    all_imp (fun c hc => by simp [word_ne_nl hc]) hL.2
  have hpn : p.all (fun c => !(c = '\n')) = true :=
    all_imp (fun c hc => by simp [word_ne_nl hc]) hp.2
  have hvn : v.all (fun c => !(c = '\n')) = true :=
    all_imp (fun c hc => by simp [val_ne_nl hc]) hv.2
  have hnl : (singleLine a L p v).all (fun c => !(c = '\n')) = true := by
    simp only [singleLine, condText, List.all_append, List.all_cons, Bool.and_eq_true, hA, hLn,
      hpn, hvn,
      show (String.toList "MATCH (").all (fun c => !(c = '\n')) = true from by decide,
      show (String.toList ") WHERE ").all (fun c => !(c = '\n')) = true from by decide,
      show (!(':' = '\n')) = true from by decide,
      show (!('.' = '\n')) = true from by decide,
      show (!(' ' = '\n')) = true from by decide,
      show (!('=' = '\n')) = true from by decide]
    simp
  have e0 : getCypherL (singleLine a L p v)
      = (match transformCypherQuery (padBlockL (singleLine a L p v)) with
        | Except.ok t => String.toList "EXISTS (\n" ++ t ++ String.toList "\n)"
        | Except.error _ =>
            String.toList "EXISTS \x7b\n" ++ padBlockL (singleLine a L p v)
              ++ String.toList "\n)") := rfl
  rw [e0, padBlockL_single hnl, transform_single ha hL hp hv]
  simp only [List.append_assoc, List.cons_append, List.nil_append]
  rfl

/-- Witness for the amended claim C1 at `MATCH (n:Label) WHERE n.prop = $val`. -/
theorem claimC1_amended_witness :
    IdentOk (String.toList "n") ∧ IdentOk (String.toList "Label") ∧
    IdentOk (String.toList "prop") ∧ ValOk (String.toList "$val") ∧
    getCypherL (singleLine (String.toList "n") (String.toList "Label")
        (String.toList "prop") (String.toList "$val"))
      = String.toList "EXISTS (\n(:" ++ (String.toList "Label" ++ (String.toList " \x7b " ++
          (String.toList "prop" ++ (String.toList ": " ++ (String.toList "$val" ++
            String.toList " \x7d) \n)"))))) :=
  ⟨by decide, by decide, by decide, by decide,
    claimC1_amended (by decide) (by decide) (by decide) (by decide)⟩

/-- Claim C2: for every subquery whose rendered text contains no WHERE
keyword, `Exists.getCypher` catches the rewrite failure internally and
returns the fallback `EXISTS \x7b` + newline + the indented original
(unrewritten) text + newline + `)` — the opening brace closed by a
parenthesis; no error reaches the caller since the render is a total
function. -/
theorem claimC2_fallback {s : List Char} (h : hasWhere s = false) :
    getCypherL s = String.toList "EXISTS \x7b\n" ++ (padBlockL s ++ String.toList "\n)") := by
  have h1 : hasWhere (padBlockL s) = false := by rw [hasWhere_padBlockL]; exact h
  have h3 : findWhere (stripMatchL (padBlockL s)) = none :=
    findWhere_none_of_no_where (hasWhere_stripMatchL h1)
  have e : getCypherL s
      = (match transformCypherQuery (padBlockL s) with
        | Except.ok t => String.toList "EXISTS (\n" ++ t ++ String.toList "\n)"
        | Except.error _ =>
            String.toList "EXISTS \x7b\n" ++ padBlockL s ++ String.toList "\n)") := rfl
  have e2 : transformCypherQuery (padBlockL s) = Except.error "No WHERE clause found." := by
    simp only [transformCypherQuery, h3]
  rw [e, e2, List.append_assoc]

/-- Witness for claim C2 at the WHERE-free subquery `MATCH (n:Label)`. -/
theorem claimC2_fallback_witness :
    hasWhere (String.toList "MATCH (n:Label)") = false ∧
    getCypherL (String.toList "MATCH (n:Label)")
      = String.toList "EXISTS \x7b\n\tMATCH (n:Label)\n)" :=
  ⟨by decide, (claimC2_fallback (by decide)).trans (by decide)⟩

/-- Claim C3, counterexample: the fragment
`MATCH (n:L)\nWHERE n.p = 1\nRETURN n` contains a WHERE clause, yet
`transformCypherQuery` throws `"No WHERE clause found."` because the capture
regex only matches a WHERE clause that runs to the end of the text. -/
theorem claimC3_counterexample :
    hasWhere (String.toList "MATCH (n:L)\nWHERE n.p = 1\nRETURN n") = true ∧
    transformCypherQuery (String.toList "MATCH (n:L)\nWHERE n.p = 1\nRETURN n")
      = Except.error "No WHERE clause found." :=
  ⟨by decide, by rfl⟩

/-- Claim C3, amended: `transformCypherQuery` throws its single error
`"No WHERE clause found."` exactly when the WHERE regex finds no match in the
MATCH-stripped fragment or captures an empty condition text; the absence of
any WHERE keyword implies this, but a fragment whose WHERE clause does not
reach the final line throws as well. -/
theorem claimC3_amended (l : List Char) :
    (hasWhere l = false → transformCypherQuery l = Except.error "No WHERE clause found.") ∧
    (transformCypherQuery l = Except.error "No WHERE clause found."
      ↔ (findWhere (stripMatchL l) = none ∨
          ∃ b, findWhere (stripMatchL l) = some (b, []))) := by
  constructor
  · intro h
    have h3 : findWhere (stripMatchL l) = none :=
      findWhere_none_of_no_where (hasWhere_stripMatchL h)
    simp only [transformCypherQuery, h3]
  · constructor
    · intro h
      cases hf : findWhere (stripMatchL l) with
      | none => exact Or.inl rfl
      | some pr =>
        obtain ⟨b, cap⟩ := pr
        refine Or.inr ⟨b, ?_⟩
        simp only [transformCypherQuery, hf] at h
        by_cases hc : cap.isEmpty = true
        · rw [List.isEmpty_iff.mp hc]
        · rw [if_neg hc] at h
          exact absurd h (by simp)
    · intro h
      rcases h with h | ⟨b, h⟩
      · simp only [transformCypherQuery, h]
      · simp only [transformCypherQuery, h, List.isEmpty_nil, if_true]

/-- Witness for the amended claim C3 at the fragment `MATCH (n:Lbl)`. -/
theorem claimC3_amended_witness :
    hasWhere (String.toList "MATCH (n:Lbl)") = false ∧
    transformCypherQuery (String.toList "MATCH (n:Lbl)")
      = Except.error "No WHERE clause found." :=
  ⟨by decide, (claimC3_amended (String.toList "MATCH (n:Lbl)")).1 (by decide)⟩

/-- Claim C4: for every captured condition text of the form
`x1.k1 = v1 AND x2.k2 = v2 AND ...` (well-formed alias/key/value tokens), the
generated properties body lists the `key: value` pairs in the order the
conditions appeared, joined by `", "`. -/
theorem claimC4_properties {ts : List ((List Char) × (List Char) × (List Char))}
    (hne : ts ≠ []) (h : ∀ t ∈ ts, CondOk t) :
    propertiesOf (andJoin (ts.map condOf))
      = joinSep (',' :: ' ' :: []) (ts.map (fun t => t.2.1 ++ ':' :: ' ' :: t.2.2)) :=
  propertiesOf_andJoin hne h

/-- Witness for claim C4 at `n.a = 1 AND n.b = 2`, whose body is `a: 1, b: 2`. -/
theorem claimC4_properties_witness :
    ([(String.toList "n", String.toList "a", String.toList "1"),
      (String.toList "n", String.toList "b", String.toList "2")] ≠
        ([] : List ((List Char) × (List Char) × (List Char)))) ∧
    propertiesOf (String.toList "n.a = 1 AND n.b = 2") = String.toList "a: 1, b: 2" := by
  refine ⟨by decide, ?_⟩
  have h2 := @claimC4_properties
    [(String.toList "n", String.toList "a", String.toList "1"),
     (String.toList "n", String.toList "b", String.toList "2")]
    (by decide) (by decide)
  rw [show String.toList "n.a = 1 AND n.b = 2"
      = andJoin ([(String.toList "n", String.toList "a", String.toList "1"),
          (String.toList "n", String.toList "b", String.toList "2")].map condOf) from rfl, h2]
  decide

/-- Claim C7, counterexample: in `n.a = 1 AND = 2` the second condition has an
empty parsed key, and it contributes `: 2` — not the empty string — so the
body is `a: 1, : 2` rather than the claimed `a: 1, `. -/
theorem claimC7_counterexample :
    propertiesOf (String.toList "n.a = 1 AND = 2") = String.toList "a: 1, : 2" ∧
    String.toList "a: 1, : 2" ≠ String.toList "a: 1, " :=
  ⟨by decide, by decide⟩

/-- Claim C7, amended: a condition whose parsed key is empty contributes
`: value` (colon, space, value) to the `", "` join — the computed one-key
condition object always has exactly one key, even the empty string, so the
empty-contribution branch of the source never fires. -/
theorem claimC7_amended {v : List Char} (hv : ValOk v) :
    propertiesOf ('=' :: ' ' :: v) = ':' :: ' ' :: v := by
  obtain ⟨v0, v2, rfl⟩ : ∃ v0 v2, v = v0 :: v2 := by
    cases hv1 : v with
    | nil => exact absurd hv1 hv.1
    | cons x y => exact ⟨x, y, rfl⟩
  have hv0 : isValChar v0 = true := by have := hv.2; simp_all
  have hvdw : (v0 :: v2).dropWhile isJsWs = v0 :: v2 := dropWhile_cons_neg (not_ws_of_val hv0)
  have hsem : findSepAnd ('=' :: ' ' :: (v0 :: v2)) = none := by
    rw [findSepAnd_cons_none (trySepAnd_none_of_not_ws (by decide)),
      findSepAnd_cons_none (trySepAnd_space_val_end hv.2),
      findSepAnd_none_of_notws (all_imp (fun c => val_not_ws_b) hv.2)]
    rfl
  have htry : trySepEq ('=' :: ' ' :: (v0 :: v2)) = some (v0 :: v2) := by
    have hd : ('=' :: ' ' :: (v0 :: v2)).dropWhile isJsWs = '=' :: ' ' :: (v0 :: v2) :=
      dropWhile_cons_neg (by decide)
    simp only [trySepEq, hd, List.head?_cons, Option.some_inj, List.tail_cons]
    rw [List.dropWhile_cons, if_pos (by decide : isJsWs ' ' = true), hvdw]
    simp
  have hparse : parseCondition ('=' :: ' ' :: (v0 :: v2)) = ([], v0 :: v2) := by
    simp only [parseCondition, findSepEq_cons_some htry,
      findSepEq_none_of_safe (all_imp (fun c => val_safe_eq) hv.2)]
  rw [propertiesOf, splitAnd_of_none hsem]
  show joinSep (',' :: ' ' :: []) [condPiece (conditionEntry ('=' :: ' ' :: (v0 :: v2)))]
      = ':' :: ' ' :: (v0 :: v2)
  simp only [conditionEntry, hparse]
  rfl

/-- Witness for the amended claim C7 at the condition `= 2`. -/
theorem claimC7_amended_witness :
    ValOk (String.toList "2") ∧
    propertiesOf (String.toList "= 2") = String.toList ": 2" :=
  ⟨by decide, claimC7_amended (by decide)⟩

/-- Claim C9: the fragment `MATCH (m:Movie)\nWHERE m.title = $t\nRETURN m`
contains a WHERE keyword, but the WHERE clause is not on the final line, so
the capture regex fails, `transformCypherQuery` throws, and `getCypher`
returns the `EXISTS \x7b` fallback. -/
theorem claimC9_where_not_last_line :
    hasWhere (String.toList "MATCH (m:Movie)\nWHERE m.title = $t\nRETURN m") = true ∧
    transformCypherQuery
        (padBlockL (String.toList "MATCH (m:Movie)\nWHERE m.title = $t\nRETURN m"))
      = Except.error "No WHERE clause found." ∧
    getCypherL (String.toList "MATCH (m:Movie)\nWHERE m.title = $t\nRETURN m")
      = String.toList "EXISTS \x7b\n\tMATCH (m:Movie)\n\tWHERE m.title = $t\n\tRETURN m\n)" :=
  ⟨by decide, by rfl, by rfl⟩

/-- Claim C10: a final-line WHERE followed by only whitespace, or by an empty
parenthesized condition `()`, captures an empty condition text and throws the
same `"No WHERE clause found."` error, triggering the fallback render. -/
theorem claimC10_empty_capture :
    transformCypherQuery (padBlockL (String.toList "MATCH (n:L) WHERE "))
      = Except.error "No WHERE clause found." ∧
    transformCypherQuery (padBlockL (String.toList "MATCH (n:L) WHERE ()"))
      = Except.error "No WHERE clause found." ∧
    getCypherL (String.toList "MATCH (n:L) WHERE ()")
      = String.toList "EXISTS \x7b\n\tMATCH (n:L) WHERE ()\n)" :=
  ⟨by rfl, by rfl, by rfl⟩

/-- The WHERE regex succeeds on `WHERE x.k = v` for well-formed tokens and
captures exactly the condition text. -/
theorem matchWhereAt_hit_cond {a p v : List Char} (ha : IdentOk a) (hp : IdentOk p)
    (hv : ValOk v) :
    matchWhereAt ('W' :: 'H' :: 'E' :: 'R' :: 'E' :: ' ' :: condText a p v)
      = some (condText a p v) := by
  obtain ⟨a0, a2, rfl⟩ : ∃ a0 a2, a = a0 :: a2 := by
    cases ha1 : a with
    | nil => exact absurd ha1 ha.1
    | cons x y => exact ⟨x, y, rfl⟩
  have ha0 : isWordChar a0 = true := by have := ha.2; simp_all
  have hTdw : (condText (a0 :: a2) p v).dropWhile isJsWs = condText (a0 :: a2) p v := by
    rw [condText_cons]
    exact dropWhile_cons_neg (not_ws_of_word ha0)
  have hTlt : (condText (a0 :: a2) p v).any isLineTerm = false := by
    have h1 : (a0 :: a2).any isLineTerm = false :=
      any_eq_false_of_all (fun c => not_lineTerm_of_word) ha.2
    have h2 : p.any isLineTerm = false :=
      any_eq_false_of_all (fun c => not_lineTerm_of_word) hp.2
    have h3 : v.any isLineTerm = false :=
      any_eq_false_of_all (fun c => not_lineTerm_of_val) hv.2
    have e : condText (a0 :: a2) p v
        = (((a0 :: a2) ++ ('.' :: [])) ++ p) ++ ((' ' :: '=' :: ' ' :: []) ++ v) := by
      simp [condText, List.append_assoc]
    rw [e]
    simp only [List.any_append, h1, h2, h3,
      show ('.' :: []).any isLineTerm = false from by decide,
      show (' ' :: '=' :: ' ' :: []).any isLineTerm = false from by decide,
      Bool.or_false, Bool.false_or]
  have hThd : (condText (a0 :: a2) p v).head? ≠ some '(' := by
    rw [condText_cons]
    intro hc
    simp only [List.head?_cons] at hc
    exact word_ne_lparen ha0 (Option.some_inj.mp hc)
  have hTlast : (condText (a0 :: a2) p v).getLast? ≠ some ')' := by
    have e : condText (a0 :: a2) p v
        = ((a0 :: a2) ++ ('.' :: p) ++ (' ' :: '=' :: ' ' :: [])) ++ v := by
      rw [condText]
      simp [List.append_assoc]
    rw [e, List.getLast?_append_of_ne_nil _ hv.1]
    intro hg
    have hd : ')' ∈ v := List.mem_of_mem_getLast? hg
    have hall := hv.2
    simp only [List.all_eq_true] at hall
    exact val_ne_rparen (hall _ hd) rfl
  exact matchWhereAt_hit hTlt hTdw hThd hTlast

/-- The properties string of one well-formed condition text. -/
theorem propertiesOf_condText {a p v : List Char} (ha : IdentOk a) (hp : IdentOk p)
    (hv : ValOk v) : propertiesOf (condText a p v) = p ++ ':' :: ' ' :: v := by
  rw [propertiesOf, splitAnd_of_none (findSepAnd_condText_end ha hp hv)]
  show joinSep (',' :: ' ' :: []) [condPiece (conditionEntry (condText a p v))]
      = p ++ ':' :: ' ' :: v
  rw [conditionEntry_condText ha hp hv, condPiece_pair]
  rfl

/-- Claim C5, counterexample: in `MATCH (n) WHERE n.p = 1` no label marker
precedes a closing parenthesis, so the rewritten fragment receives no
properties insertion at all — the body `p: 1` is dropped and the result is
the bare `(n) ` (zero insertions, not "exactly once"). -/
theorem claimC5_counterexample :
    transformCypherQuery (String.toList "MATCH (n) WHERE n.p = 1")
      = Except.ok (String.toList "(n) ") ∧
    (String.toList "(n) ").count '\x7b' = 0 :=
  ⟨by rfl, by decide⟩

/-- Claim C5, amended: the properties body is inserted at most once, after the
first label marker that directly precedes a closing parenthesis; in a
two-node pattern `(a:L1)--(b:L2)` only the first node receives the body and
the second stays untouched, and when no such marker exists no insertion
happens at all. -/
theorem claimC5_amended {a L1 b L2 p v : List Char} (ha : IdentOk a) (hL1 : IdentOk L1)
    (hb : IdentOk b) (hL2 : IdentOk L2) (hp : IdentOk p) (hv : ValOk v) :
    transformCypherQuery ('M' :: 'A' :: 'T' :: 'C' :: 'H' :: ' ' :: '(' ::
        (a ++ (':' :: (L1 ++ (')' :: '-' :: '-' :: '(' ::
          (b ++ (':' :: (L2 ++ (')' :: ' ' ::
            'W' :: 'H' :: 'E' :: 'R' :: 'E' :: ' ' :: condText a p v)))))))))
      = Except.ok ('(' :: ':' :: (L1 ++ (' ' :: '\x7b' :: ' ' ::
          (p ++ (':' :: ' ' :: (v ++ (' ' :: '\x7d' :: ')' :: '-' :: '-' ::
            '(' :: ':' :: (L2 ++ (')' :: ' ' :: []))))))))) := by
  obtain ⟨a0, a2, rfl⟩ : ∃ a0 a2, a = a0 :: a2 := by
    cases ha1 : a with
    | nil => exact absurd ha1 ha.1
    | cons x y => exact ⟨x, y, rfl⟩
  have hstrip : stripMatchL ('M' :: 'A' :: 'T' :: 'C' :: 'H' :: ' ' :: '(' ::
      ((a0 :: a2) ++ (':' :: (L1 ++ (')' :: '-' :: '-' :: '(' ::
        (b ++ (':' :: (L2 ++ (')' :: ' ' ::
          'W' :: 'H' :: 'E' :: 'R' :: 'E' :: ' ' :: condText (a0 :: a2) p v)))))))))
      = '(' :: ((a0 :: a2) ++ (':' :: (L1 ++ (')' :: '-' :: '-' :: '(' ::
          (b ++ (':' :: (L2 ++ (')' :: ' ' ::
            'W' :: 'H' :: 'E' :: 'R' :: 'E' :: ' ' :: condText (a0 :: a2) p v)))))))) :=
    stripMatchL_plain _
  have hfw : findWhere ('(' :: ((a0 :: a2) ++ (':' :: (L1 ++ (')' :: '-' :: '-' :: '(' ::
      (b ++ (':' :: (L2 ++ (')' :: ' ' ::
        'W' :: 'H' :: 'E' :: 'R' :: 'E' :: ' ' :: condText (a0 :: a2) p v)))))))))
      = some ('(' :: ((a0 :: a2) ++ (':' :: (L1 ++ (')' :: '-' :: '-' :: '(' ::
          (b ++ (':' :: (L2 ++ (')' :: ' ' :: [])))))))), condText (a0 :: a2) p v) := by
    rw [findWhere_cons_skip (by decide), findWhere_append_word ha.2 headSafeWhere_colon,
      findWhere_cons_skip (by decide), findWhere_append_word hL1.2 headSafeWhere_rparen,
      findWhere_cons_skip (by decide), findWhere_cons_skip (by decide),
      findWhere_cons_skip (by decide), findWhere_cons_skip (by decide),
      findWhere_append_word hb.2 headSafeWhere_colon,
      findWhere_cons_skip (by decide), findWhere_append_word hL2.2 headSafeWhere_rparen,
      findWhere_cons_skip (by decide), findWhere_cons_skip (by decide),
      findWhere_cons_some (matchWhereAt_hit_cond ha hp hv)]
    simp
  have hflabel : findLabel ('(' :: ((a0 :: a2) ++ (':' :: (L1 ++ (')' :: '-' :: '-' :: '(' ::
      (b ++ (':' :: (L2 ++ (')' :: ' ' :: [])))))))))
      = some ('(' :: (a0 :: a2), ':' :: L1, ')' :: '-' :: '-' :: '(' ::
          (b ++ (':' :: (L2 ++ (')' :: ' ' :: []))))) := by
    rw [findLabel_cons_none (tryLabelAt_ne (by decide)),
      findLabel_append_nocolon (all_imp (fun c hc => by simp [word_ne_colon hc]) ha.2),
      findLabel_cons_some (tryLabelAt_hit hL1.2 hL1.1)]
    simp
  have hcapne : (condText (a0 :: a2) p v).isEmpty = false := by
    rw [condText_cons]; rfl
  simp only [transformCypherQuery, hstrip, hfw, hcapne, Bool.false_eq_true, if_false,
    propertiesOf_condText ha hp hv]
  rw [injectProps_of_found hflabel]
  have hnorm : ('(' :: (a0 :: a2)) ++ (':' :: L1) ++ ' ' :: '\x7b' :: ' ' ::
      (p ++ ':' :: ' ' :: v) ++ ' ' :: '\x7d' :: (')' :: '-' :: '-' :: '(' ::
        (b ++ (':' :: (L2 ++ (')' :: ' ' :: [])))))
      = '(' :: ((a0 :: a2) ++ (':' :: ((L1 ++ (' ' :: '\x7b' :: ' ' ::
          (p ++ (':' :: ' ' :: (v ++ (' ' :: '\x7d' :: ')' :: '-' :: '-' :: []))))))
            ++ ('(' :: (b ++ (':' :: (L2 ++ (')' :: ' ' :: [])))))))) := by
    simp [List.append_assoc]
  rw [hnorm]
  have hb1 : (!(' ' = '(')) = true := by decide
  have hb2 : (!('\x7b' = '(')) = true := by decide
  have hb3 : (!(':' = '(')) = true := by decide
  have hb4 : (!('\x7d' = '(')) = true := by decide
  have hb5 : (!(')' = '(')) = true := by decide
  have hb6 : (!('-' = '(')) = true := by decide
  have hUall : (L1 ++ (' ' :: '\x7b' :: ' ' ::
      (p ++ (':' :: ' ' :: (v ++ (' ' :: '\x7d' :: ')' :: '-' :: '-' :: [])))))).all
        (fun c => !(c = '(')) = true := by
    have h1 : L1.all (fun c => !(c = '(')) = true :=
      all_imp (fun c hc => by simp [word_ne_lparen hc]) hL1.2
    have h2 : p.all (fun c => !(c = '(')) = true :=
      all_imp (fun c hc => by simp [word_ne_lparen hc]) hp.2
    have h3 : v.all (fun c => !(c = '(')) = true :=
      all_imp (fun c hc => by simp [val_ne_lparen hc]) hv.2
    simp [List.all_append, List.all_cons, h1, h2, h3, hb1, hb2, hb3, hb4, hb5, hb6]
  have hL2all : (L2 ++ (')' :: ' ' :: [])).all (fun c => !(c = '(')) = true := by
    have h1 : L2.all (fun c => !(c = '(')) = true :=
      all_imp (fun c hc => by simp [word_ne_lparen hc]) hL2.2
    simp [List.all_append, List.all_cons, h1, hb1, hb5]
  have hsv : stripVars ('(' :: ((a0 :: a2) ++ (':' :: ((L1 ++ (' ' :: '\x7b' :: ' ' ::
      (p ++ (':' :: ' ' :: (v ++ (' ' :: '\x7d' :: ')' :: '-' :: '-' :: []))))))
        ++ ('(' :: (b ++ (':' :: (L2 ++ (')' :: ' ' :: [])))))))))
      = '(' :: ':' :: ((L1 ++ (' ' :: '\x7b' :: ' ' ::
          (p ++ (':' :: ' ' :: (v ++ (' ' :: '\x7d' :: ')' :: '-' :: '-' :: []))))))
            ++ ('(' :: ':' :: (L2 ++ (')' :: ' ' :: [])))) := by
    rw [stripVars, svGo_none_open, svGo_buf_word ha.2 (Or.inr (by simp)),
      svGo_none_append hUall, svGo_none_open, svGo_buf_word hb.2 (Or.inr hb.1),
      svGo_none_id hL2all]
  rw [hsv]
  simp [List.append_assoc]

/-- Witness for the amended claim C5 at `MATCH (a:L1)--(b:L2) WHERE a.p = 2`. -/
theorem claimC5_amended_witness :
    IdentOk (String.toList "a") ∧ IdentOk (String.toList "L1") ∧
    IdentOk (String.toList "b") ∧ IdentOk (String.toList "L2") ∧
    transformCypherQuery (String.toList "MATCH (a:L1)--(b:L2) WHERE a.p = 2")
      = Except.ok (String.toList "(:L1 \x7b p: 2 \x7d)--(:L2) ") :=
  ⟨by decide, by decide, by decide, by decide,
    @claimC5_amended (String.toList "a") (String.toList "L1") (String.toList "b")
      (String.toList "L2") (String.toList "p") (String.toList "2")
      (by decide) (by decide) (by decide) (by decide) (by decide) (by decide)⟩

/-- Claim C6: every `(var:`-shaped node reference loses its variable name and
keeps the colon: for any list of `(var:Label)` node patterns — not only the
node that received the injected properties — each variable is removed. -/
theorem claimC6_strip_all {nodes : List ((List Char) × (List Char))}
    (h : ∀ n ∈ nodes, IdentOk n.1 ∧ IdentOk n.2) :
    stripVars (nodes.foldr (fun n acc => '(' :: (n.1 ++ (':' :: (n.2 ++ (')' :: acc))))) [])
      = nodes.foldr (fun n acc => '(' :: ':' :: (n.2 ++ (')' :: acc))) [] := by
  induction nodes with
  | nil => rfl
  | cons nd rest ih =>
    have hnd := h nd (by simp)
    have e : (nd :: rest).foldr
        (fun n acc => '(' :: (n.1 ++ (':' :: (n.2 ++ (')' :: acc))))) []
        = '(' :: (nd.1 ++ (':' :: (nd.2 ++ (')' ::
            rest.foldr (fun n acc => '(' :: (n.1 ++ (':' :: (n.2 ++ (')' :: acc))))) [])))) :=
      rfl
    rw [e, stripVars, svGo_none_open, svGo_buf_word hnd.1.2 (Or.inr hnd.1.1),
      svGo_none_append (all_imp (fun c hc => by simp [word_ne_lparen hc]) hnd.2.2),
      svGo_none_cons_ne (by decide), ← stripVars, ih (fun n hn => h n (by simp [hn]))]
    rfl

/-- Witness for claim C6 at the two-node fragment `(a:L1)(b:L2)`. -/
theorem claimC6_strip_all_witness :
    (∀ n ∈ [(String.toList "a", String.toList "L1"), (String.toList "b", String.toList "L2")],
      IdentOk n.1 ∧ IdentOk n.2) ∧
    stripVars (String.toList "(a:L1)(b:L2)") = String.toList "(:L1)(:L2)" :=
  ⟨by decide, @claimC6_strip_all
    [(String.toList "a", String.toList "L1"), (String.toList "b", String.toList "L2")]
    (by decide)⟩

/-- Without any `=` character the `/\s*=\s*/` separator never matches. -/
theorem findSepEq_none_of_no_eq {v : List Char} (h : v.all (fun c => !(c = '=')) = true) :
    findSepEq v = none := by
  induction v with
  | nil => rfl
  | cons c t ih =>
    have htry : trySepEq (c :: t) = none := by
      simp only [trySepEq]
      cases hdw : (c :: t).dropWhile isJsWs with
      | nil => simp
      | cons d r =>
        have hd : d ∈ c :: t := by
          have hsub : List.Sublist ((c :: t).dropWhile isJsWs) (c :: t) :=
            List.dropWhile_sublist isJsWs
          exact hsub.mem (by rw [hdw]; exact List.mem_cons_self d r)
        have hdne : ¬ d = '=' := by
          simp only [List.all_eq_true] at h
          simpa using h d hd
        have hni : ¬ ((d :: r).head? = some '=') := by
          simp only [List.head?_cons, Option.some_inj]
          exact hdne
        rw [if_neg hni]
    rw [findSepEq_cons_none htry, ih (by simp_all)]
    rfl

/-- Claim C8: the condition-parsing phase is total and never throws.  Every
condition text parses to a key/value pair of strings; a well-formed
`alias.key = value` condition parses to the bare key — the alias prefix is
stripped by the final-dot-segment rule — and the value; and a malformed
condition without any `=` sign degrades to the whole text as key with an
empty value instead of failing. -/
theorem claimC8_parsing_total :
    (∀ cond : List Char, ∃ kv : List Char × List Char, parseCondition cond = kv) ∧
    (∀ x k v : List Char, IdentOk x → IdentOk k → ValOk v →
      conditionEntry (condText x k v) = [(k, v)]) ∧
    (∀ cond : List Char, cond.all (fun c => !(c = '=')) = true →
      parseCondition cond = (cond, [])) := by
  refine ⟨fun cond => ⟨parseCondition cond, rfl⟩,
    fun x k v hx hk hv => conditionEntry_condText hx hk hv, ?_⟩
  intro cond hc
  simp only [parseCondition, findSepEq_none_of_no_eq hc]

/-- Witness for claim C8: `this0.name = $param` parses to `name`/`$param`,
and the `=`-free text `foo` parses to itself with an empty value. -/
theorem claimC8_parsing_total_witness :
    IdentOk (String.toList "this0") ∧ IdentOk (String.toList "name") ∧
    ValOk (String.toList "$param") ∧
    conditionEntry (String.toList "this0.name = $param")
      = [(String.toList "name", String.toList "$param")] ∧
    parseCondition (String.toList "foo") = (String.toList "foo", []) :=
  ⟨by decide, by decide, by decide,
    claimC8_parsing_total.2.1 (String.toList "this0") (String.toList "name")
      (String.toList "$param") (by decide) (by decide) (by decide),
    claimC8_parsing_total.2.2 (String.toList "foo") (by decide)⟩

end CypherBuilder
